import Mathlib

/-!
# Verification of `schema-entity-rest` (src/EntityREST.js)

A shallow embedding of the request-to-entity-operation translation pipeline of
`EntityREST.js`: the query-string-to-filter translator (`filterConditions`),
the get-many option computation (limit / sort / skip), the middleware adapter
(`express`), and the seven operation pipelines (`getOne`, `getMany`, `postOne`,
`putOne`, `patchOne`, `patchMany`, `deleteOne`).

JavaScript objects are modelled as association lists of string keys and `JVal`
values, with object-spread (`{...a, ...b}`) as fold of an upsert, and lodash's
`omitBy(isUndefined, ·)` as a filter.  Stateful pipelines are modelled as pure
functions producing a `Run`: the list of observable calls (trace) together
with either success or the thrown structured error, mirroring the linear
`await`-sequenced control flow of the source.  External collaborators
(the Entity storage/validation object, the per-endpoint specification, and the
JSON-Patch library) are parameters.
-/

set_option autoImplicit false

/-- A JavaScript (JSON-ish) value, including `undefined`, as manipulated by
`EntityREST.js`.  Objects are association lists in key order. -/
inductive JVal where
  | undef
  | null
  | bool (b : Bool)
  | num (n : Int)
  | str (s : String)
  | obj (fields : List (String × JVal))
  | arr (elems : List JVal)

/-- A JavaScript object: ordered fields with string keys. -/
abbrev Obj := List (String × JVal)

/-- A query-string value as seen by the handlers: per the request view,
`query` is a `mapping<string,string>`, and the source additionally guards
against keys explicitly set to `undefined` (`query[prop] !== undefined`). -/
inductive QVal where
  | undef
  | str (s : String)
  deriving DecidableEq, Repr

/-- The request query: ordered string keys with `QVal` values. -/
abbrev Query := List (String × QVal)

/-- First-match association-list lookup: JS property access on an object. -/
def lookupA {α : Type} : List (String × α) → String → Option α
  | [], _ => none
  | (k, v) :: rest, key => if k = key then some v else lookupA rest key

/-- JS property assignment `o[k] = v` on an object literal under construction:
replaces the value at an existing key (keeping its position), otherwise
appends the key. -/
def setA {α : Type} : List (String × α) → String → α → List (String × α)
  | [], k, v => [(k, v)]
  | (k0, v0) :: rest, k, v =>
    if k0 = k then (k, v) :: rest else (k0, v0) :: setA rest k v

/-- JS object spread `{...a, ...b}`: assign every field of `b` over `a`. -/
def spreadA {α : Type} (a b : List (String × α)) : List (String × α) :=
  b.foldl (fun acc kv => setA acc kv.1 kv.2) a

/-- The keys of an association list, in order. -/
def keysA {α : Type} (l : List (String × α)) : List String :=
  l.map Prod.fst

/-- Left-biased choice on options (JS `a !== undefined ? a : b` shape). -/
def oElse {α : Type} : Option α → Option α → Option α
  | some v, _ => some v
  | none, b => b

theorem lookupA_setA {α : Type} (l : List (String × α)) (k j : String) (v : α) :
    lookupA (setA l k v) j = if j = k then some v else lookupA l j := by
  induction l with
  | nil =>
    by_cases h : j = k
    · subst h; simp [setA, lookupA]
    · have h2 : ¬ k = j := fun hc => h hc.symm
      simp [setA, lookupA, h, h2]
  | cons kv rest ih =>
    obtain ⟨k0, v0⟩ := kv
    by_cases h0 : k0 = k
    · subst h0
      by_cases h : j = k0
      · subst h; simp [setA, lookupA]
      · have h2 : ¬ k0 = j := fun hc => h hc.symm
        simp [setA, lookupA, h, h2]
    · by_cases h : k0 = j
      · subst h
        have h2 : ¬ k0 = k := h0
        simp [setA, lookupA, h0, h2, fun hc : k0 = k => h0 hc]
      · simp [setA, lookupA, h0, h, ih]

theorem lookupA_of_not_mem {α : Type} (l : List (String × α)) (k : String)
    (h : k ∉ keysA l) : lookupA l k = none := by
  induction l with
  | nil => rfl
  | cons kv rest ih =>
    obtain ⟨k0, v0⟩ := kv
    simp only [keysA, List.map_cons, List.mem_cons] at h
    push_neg at h
    have h1 : ¬ k0 = k := fun hc => h.1 hc.symm
    simp [lookupA, h1, ih (by simpa [keysA] using h.2)]

theorem keysA_setA {α : Type} (l : List (String × α)) (k : String) (v : α) :
    keysA (setA l k v) = if k ∈ keysA l then keysA l else keysA l ++ [k] := by
  induction l with
  | nil => simp [setA, keysA]
  | cons kv rest ih =>
    obtain ⟨k0, v0⟩ := kv
    by_cases h0 : k0 = k
    · subst h0
      simp [setA, keysA]
    · have hne : ¬ k = k0 := fun hc => h0 hc.symm
      have hstep : keysA (setA ((k0, v0) :: rest) k v) = k0 :: keysA (setA rest k v) := by
        simp [setA, h0, keysA]
      rw [hstep, ih]
      by_cases hm : k ∈ keysA rest
      · simp only [keysA] at hm ⊢
        simp [hm, hne]
      · simp only [keysA] at hm ⊢
        simp [hm, hne]

theorem nodup_keysA_setA {α : Type} (l : List (String × α)) (k : String) (v : α)
    (h : (keysA l).Nodup) : (keysA (setA l k v)).Nodup := by
  rw [keysA_setA]
  by_cases hm : k ∈ keysA l
  · simpa [hm]
  · simp only [hm, if_false]
    rw [List.nodup_append]
    refine ⟨h, List.nodup_singleton k, ?_⟩
    intro a ha hb
    rw [List.mem_singleton] at hb
    exact hm (hb ▸ ha)

theorem nodup_keysA_spreadA {α : Type} (a b : List (String × α))
    (h : (keysA a).Nodup) : (keysA (spreadA a b)).Nodup := by
  induction b generalizing a with
  | nil => simpa [spreadA]
  | cons kv rest ih =>
    have hstep : spreadA a (kv :: rest) = spreadA (setA a kv.1 kv.2) rest := by
      simp [spreadA]
    rw [hstep]
    exact ih (setA a kv.1 kv.2) (nodup_keysA_setA a kv.1 kv.2 h)

theorem lookupA_spreadA {α : Type} (a b : List (String × α)) (k : String)
    (hb : (keysA b).Nodup) :
    lookupA (spreadA a b) k = oElse (lookupA b k) (lookupA a k) := by
  induction b generalizing a with
  | nil => simp [spreadA, lookupA, oElse]
  | cons kv rest ih =>
    obtain ⟨k0, v0⟩ := kv
    simp only [keysA, List.map_cons, List.nodup_cons] at hb
    have hrest : (keysA rest).Nodup := hb.2
    have hstep : spreadA a ((k0, v0) :: rest) = spreadA (setA a k0 v0) rest := by
      simp [spreadA]
    rw [hstep, ih (setA a k0 v0) hrest]
    by_cases hk : k = k0
    · subst hk
      have hnone : lookupA rest k = none :=
        lookupA_of_not_mem rest k (by simpa [keysA] using hb.1)
      rw [hnone, lookupA_setA]
      simp [lookupA, oElse]
    · have h2 : ¬ k0 = k := fun hc => hk hc.symm
      rw [lookupA_setA]
      simp only [hk, if_false]
      cases hr : lookupA rest k <;> simp [lookupA, oElse, h2, hr]

/-- lodash `_.omitBy(_.isUndefined, o)`: drop the keys whose value is
`undefined`. -/
def omitUndef (o : Obj) : Obj :=
  o.filter (fun kv => match kv.2 with | JVal.undef => false | _ => true)

/-- `some v` for a defined value, `none` for `undefined` (a stripped key). -/
def dropUndef : JVal → Option JVal
  | JVal.undef => none
  | v => some v

theorem lookupA_omitUndef (o : Obj) (k : String) (h : (keysA o).Nodup) :
    lookupA (omitUndef o) k = (lookupA o k).bind dropUndef := by
  induction o with
  | nil => rfl
  | cons kv rest ih =>
    obtain ⟨k0, v0⟩ := kv
    simp only [keysA, List.map_cons, List.nodup_cons] at h
    have hrest := ih h.2
    by_cases hk : k = k0
    · subst hk
      have hnone : lookupA rest k = none :=
        lookupA_of_not_mem rest k (by simpa [keysA] using h.1)
      match v0 with
      | JVal.undef =>
        rw [show omitUndef ((k, JVal.undef) :: rest) = omitUndef rest from rfl, hrest, hnone]
        simp [lookupA, dropUndef]
      | JVal.null | JVal.bool _ | JVal.num _ | JVal.str _ | JVal.obj _ | JVal.arr _ =>
        simp [omitUndef, lookupA, dropUndef, List.filter]
    · have h2 : ¬ k0 = k := fun hc => hk hc.symm
      match v0 with
      | JVal.undef =>
        rw [show omitUndef ((k0, JVal.undef) :: rest) = omitUndef rest from rfl, hrest]
        simp [lookupA, h2]
      | JVal.null | JVal.bool _ | JVal.num _ | JVal.str _ | JVal.obj _ | JVal.arr _ =>
        simp only [omitUndef, List.filter, lookupA, h2, if_false] at hrest ⊢
        simpa [omitUndef] using hrest

/-! ## JS numeric primitives used by `getMany`: `parseInt`, `Math.min` -/

/-- A JS number as produced by `parseInt`/`Math.min` here: either `NaN` or an
integer (all inputs in scope are integral). -/
inductive JNum where
  | nan
  | int (n : Int)
  deriving DecidableEq, Repr

/-- Characters skipped by `parseInt` before parsing (JS WhiteSpace and line
terminators). -/
def isJsSpace (c : Char) : Bool :=
  c = ' ' || c = '\t' || c = '\n' || c = '\r' || c = '\x0b' || c = '\x0c' ||
  c = ' ' || c = ' ' || c = ' ' || c = '﻿'

/-- Hexadecimal digit test for `parseInt`'s `0x` form. -/
def isHexDigitChar (c : Char) : Bool :=
  c.isDigit || ('a' ≤ c && c ≤ 'f') || ('A' ≤ c && c ≤ 'F')

/-- Numeric value of a hexadecimal digit. -/
def hexDigitVal (c : Char) : Nat :=
  if c.isDigit then c.toNat - '0'.toNat
  else if 'a' ≤ c && c ≤ 'f' then c.toNat - 'a'.toNat + 10
  else c.toNat - 'A'.toNat + 10

/-- Value of a decimal digit string. -/
def decDigitsVal (cs : List Char) : Nat :=
  cs.foldl (fun a c => a * 10 + (c.toNat - '0'.toNat)) 0

/-- Value of a hexadecimal digit string. -/
def hexDigitsVal (cs : List Char) : Nat :=
  cs.foldl (fun a c => a * 16 + hexDigitVal c) 0

/-- The decimal tail of `parseInt`: longest digit run; `NaN` when empty. -/
def parseIntDec (sgn : Int) (cs : List Char) : JNum :=
  let ds := cs.takeWhile Char.isDigit
  if ds.isEmpty then JNum.nan else JNum.int (sgn * (decDigitsVal ds : Int))

/-- JS `parseInt(s)` (no radix argument): skip whitespace, optional sign,
then a `0x`/`0X` hexadecimal or decimal digit run; `NaN` when no digits. -/
def parseIntStr (s : String) : JNum :=
  let cs0 := s.data.dropWhile isJsSpace
  let signed : Int × List Char :=
    match cs0 with
    | '-' :: r => (-1, r)
    | '+' :: r => (1, r)
    | _ => (1, cs0)
  match signed.2 with
  | '0' :: c :: r =>
    if c = 'x' || c = 'X' then
      let hs := r.takeWhile isHexDigitChar
      if hs.isEmpty then JNum.nan else JNum.int (signed.1 * (hexDigitsVal hs : Int))
    else parseIntDec signed.1 signed.2
  | _ => parseIntDec signed.1 signed.2

/-- JS `Math.min` on two numbers: `NaN` is absorbing. -/
def jsMin : JNum → JNum → JNum
  | JNum.int a, JNum.int b => JNum.int (min a b)
  | _, _ => JNum.nan

/-- JS `x || 0` on a number: `NaN` (and `0`) fall back to `0`. -/
def jnumOrZero : JNum → Int
  | JNum.int n => n
  | JNum.nan => 0

/-! ## Filter Translator (`filterConditions`) -/

/-- A translated filter condition value, as consumed opaquely by `find`:
a literal, a boolean, an existence predicate (`{one: {$exists: false}}`), or a
set-membership predicate wrapping one compiled pattern
(`{one: {$in: [new RegExp(pat, flags)]}}`). -/
inductive FVal where
  | existsFalse
  | b (v : Bool)
  | s (v : String)
  | inRegex (pattern : String) (flags : String)
  deriving DecidableEq, Repr

/-- A translated filter expression: field name to condition value. -/
abbrev FilterExpr := List (String × FVal)

/-- Result of `filterConditions`: either the verbatim parse of `query.q`
(`JSON.parse(query.q)`, kept opaque as the raw string), or the translated
per-key conditions. -/
inductive FilterResult where
  | parsedQ (raw : String)
  | conds (c : FilterExpr)
  deriving DecidableEq, Repr

/-- Flag characters accepted by the literal-pattern form `/pat/flags`. -/
def isRegexFlag (c : Char) : Bool :=
  c = 'g' || c = 'i' || c = 'm' || c = 'u' || c = 'y'

/-- Characters matched by `.` in a JS regular expression without the `s`
flag (anything but a line terminator). -/
def jsDotOk (c : Char) : Bool :=
  c ≠ '\n' && c ≠ '\r' && c ≠ ' ' && c ≠ ' '

/-- Split `cs` at its last `'/'`: `some (before, after)` when a slash
occurs. -/
def splitAtLastSlash (cs : List Char) : Option (List Char × List Char) :=
  let rev := cs.reverse
  match rev.dropWhile (fun c => c ≠ '/') with
  | '/' :: midRev => some (midRev.reverse, (rev.takeWhile (fun c => c ≠ '/')).reverse)
  | _ => none

/-- The source's `value.match(/^\/(.*)\/(g|i|m|u|y)*$/)`: a leading slash, a
greedy middle (`.` excludes line terminators), a final slash, then only flag
characters.  Greediness means the split is at the last slash whose suffix is
all flags; any earlier slash would put a `/` into the flags group. -/
def regexLiteralSplit (s : String) : Option (String × String) :=
  match s.data with
  | '/' :: rest =>
    match splitAtLastSlash rest with
    | some (mid, fl) =>
      if mid.all jsDotOk && fl.all isRegexFlag then
        some (String.mk mid, String.mk fl)
      else none
    | none => none
  | _ => none

/-- Reserved query keys skipped by the translator. -/
def reservedKey (k : String) : Bool :=
  k = "limit" || k = "offset" || k = "sort" || k = "q"

/-- Translation of one defined query value (the body of the reduce):
`"undefined"` to an existence predicate, `"true"`/`"false"` to booleans, a
`/pat/flags` literal to a set-membership pattern predicate, anything else to
literal string equality. -/
def condOf (s : String) : FVal :=
  if s = "undefined" then FVal.existsFalse
  else if s = "true" then FVal.b true
  else if s = "false" then FVal.b false
  else
    match regexLiteralSplit s with
    | some pf => FVal.inRegex pf.1 pf.2
    | none => FVal.s s

/-- The accumulator step of `filterConditions`' reduce over `Object.keys`. -/
def condStep (conditions : FilterExpr) (kv : String × QVal) : FilterExpr :=
  if reservedKey kv.1 then conditions
  else
    match kv.2 with
    | QVal.undef => conditions
    | QVal.str s => setA conditions kv.1 (condOf s)

/-- The reduce of `filterConditions` over all query keys. -/
def reduceConds (query : Query) : FilterExpr :=
  query.foldl condStep []

/-- The `if (query.q)` escape hatch: the raw filter string when `query.q` is
truthy (present with a non-empty string value). -/
def qEscape (query : Query) : Option String :=
  match lookupA query "q" with
  | some (QVal.str s) => if s = "" then none else some s
  | _ => none

/-- `filterConditions(query)` from the source: parse `query.q` verbatim when
truthy, otherwise reduce the non-reserved defined keys. -/
def filterConditions (query : Query) : FilterResult :=
  match qEscape query with
  | some s => FilterResult.parsedQ s
  | none => FilterResult.conds (reduceConds query)

/-! ## `getMany` option computation: limit, sort, skip -/

/-- `Math.min(parseInt(request.query.limit || 25), 500)`: an absent or
empty (falsy) `limit` falls back to the number `25`, which `parseInt`
coerces through the string `"25"`. -/
def limitOf (query : Query) : JNum :=
  jsMin
    (parseIntStr
      (match lookupA query "limit" with
       | some (QVal.str s) => if s = "" then "25" else s
       | _ => "25"))
    (JNum.int 500)

/-- All characters of `s` are matchable by `.` (no line terminators). -/
def strDotOk (s : String) : Bool :=
  s.data.all jsDotOk

/-- The sort computation: `query.sort && query.sort.match(/^(-?)(.*)$/)`,
then `{[field]: -1|1}`, defaulting to `{_id: 1}`.  A falsy (absent or
empty) `sort` and a string the regex cannot match (one containing a line
terminator, which `.` and the unanchored-`$`-free pattern cannot span) both
fall back to the default. -/
def sortOf (query : Query) : String × Int :=
  match lookupA query "sort" with
  | some (QVal.str s) =>
    if s = "" then ("_id", 1)
    else if strDotOk s then
      match s.data with
      | '-' :: rest => (String.mk rest, -1)
      | _ => (s, 1)
    else ("_id", 1)
  | _ => ("_id", 1)

/-- `parseInt(request.query.offset) || 0`: `parseInt` of an absent value
parses the string `"undefined"`, giving `NaN`, which `|| 0` replaces. -/
def skipOf (query : Query) : Int :=
  match lookupA query "offset" with
  | some (QVal.str s) => jnumOrZero (parseIntStr s)
  | _ => 0

/-! ## Request view, structured errors, collaborators -/

/-- The URL parameters of the normalized request view; only `entityId` is
consulted.  Modelled as a `JVal` so that a missing parameter (`undefined`)
is representable alongside the usual string. -/
structure UrlParams where
  entityId : JVal

/-- The normalized request view built by the middleware adapter:
`{urlParams, query, body, user}` (the opaque `user` plays no role in any
claim and is omitted). -/
structure Request where
  urlParams : UrlParams
  query : Query
  body : JVal

/-- A structured JS error as thrown by the pipelines and hooks: an optional
`status` field, a `message`, and an optional `details` payload. -/
structure JErr where
  status : Option Nat
  message : String
  details : JVal

/-- JS truthiness of an error's `status` field (`if (e.status)`): absent or
zero is falsy. -/
def statusTruthy : Option Nat → Bool
  | none => false
  | some n => n ≠ 0

/-- The error object reported by the external JSON-Patch validator
(fast-json-patch's `JsonPatchError`): a structured object, not a number. -/
structure PatchErr where
  name : String
  message : String

/-- The external JSON-Patch library (fast-json-patch), out of scope of the
core per the spec.  `validate(patch, document)` returns the first error or
`undefined`; `applyPatch(document, patch).newDocument` is the patched
document. -/
structure JsonPatchLib where
  validate : JVal → JVal → Option PatchErr
  applyPatch : JVal → JVal → JVal

/-- JS numeric coercion of the validator's result, as forced by
`patchErrors > 0`: `undefined` and an error object both coerce to `NaN`
(an object's primitive form is a non-numeric string). -/
def patchErrNum : Option PatchErr → JNum
  | _ => JNum.nan

/-- JS `>` against `0`: false whenever the left side is `NaN`. -/
def jnumGtZero : JNum → Bool
  | JNum.nan => false
  | JNum.int n => n > 0

/-- JS truthiness of the validator's result. -/
def patchErrTruthy : Option PatchErr → Bool
  | none => false
  | some _ => true

/-- The guard `patchErrors && patchErrors > 0` of `patchOne`'s JSON-Patch
branch. -/
def invalidPatchGuard (r : Option PatchErr) : Bool :=
  patchErrTruthy r && jnumGtZero (patchErrNum r)

theorem invalidPatchGuard_eq_false (r : Option PatchErr) :
    invalidPatchGuard r = false := by
  cases r <;> rfl

/-- The per-endpoint specification: optional `authenticate`, `validate`,
`query` and `set` capabilities.  A hook models a JS function that either
returns (`none`) or throws (`some e`). -/
structure SpecEP where
  authenticate : Option (Request → Option JErr)
  validate : Option (Request → Option JErr)
  query : Option (Request → FilterExpr)
  set : Option (Request → Obj)

/-- The merged first argument of `Entity.find`:
`{...filterConditions(request.query), ...(spec.query || stubObject)(request)}`.
The two parts are kept side by side because the parse of `query.q` is opaque;
no claim depends on the merge itself. -/
structure FindFilter where
  base : FilterResult
  extra : FilterExpr
  deriving DecidableEq

/-- The options object `{limit, skip, sort}` passed to `Entity.find` by
`getMany`. -/
structure FindOpts where
  limit : JNum
  skip : Int
  sort : String × Int
  deriving DecidableEq

/-- The Entity collaborator: storage, validation, shaping and lifecycle
hooks, as consumed by the handlers.  Optional capabilities are `Option`s
(the source tests presence by truthiness: `Entity.hook && ...`); the
notification hooks' effects are opaque, so only their presence is kept. -/
structure Entity where
  findById : JVal → JVal
  find : FindFilter → Option FindOpts → JVal
  resetReadOnly : JVal → JVal → Obj
  assertValid : Obj → Option JErr
  prepareCreate : Option (Obj → Obj)
  prepareUpdate : Option (Obj → Obj)
  shouldCreate : Option (Obj → Request → Option JErr)
  shouldUpdate : Option (Obj → Request → Option JErr)
  shouldDelete : Option (JVal → Request → Option JErr)
  createOne : Obj → JVal
  updateOne : Obj → JVal
  replaceOne : Obj → JVal
  exportOne : Option (JVal → JVal)
  exportMany : Option (JVal → JVal)
  didCreate : Bool
  didUpdate : Bool
  didDelete : Bool

/-- `Modelled from the spec:` `Sert.string(value, err)` from the external
`sert-schema` library (not under `src/`) asserts that its value is a string
and throws the supplied structured error otherwise; non-emptiness is a
separate assertion (`Sert.notEmpty`) in that library and is not checked
here. -/
def jvIsString : JVal → Bool
  | JVal.str _ => true
  | _ => false

/-- `Modelled from the spec:` `Sert.object(value, err)` from the external
`sert-schema` library asserts that its value is an object — per the spec's
"require existing record (404 if absent)", `null` and non-objects throw. -/
def jvIsObject : JVal → Bool
  | JVal.obj _ => true
  | _ => false

/-- JS truthiness of a value (`if (!existingEntities)`): `undefined`,
`null`, `false`, `0`, and `""` are falsy; every object — including an empty
array — is truthy. -/
def jvTruthy : JVal → Bool
  | JVal.undef => false
  | JVal.null => false
  | JVal.bool b => b
  | JVal.num n => n ≠ 0
  | JVal.str s => s ≠ ""
  | JVal.obj _ => true
  | JVal.arr _ => true

/-- JS `typeof v === 'object'`: true for objects, arrays and `null`. -/
def jvTypeofObject : JVal → Bool
  | JVal.obj _ => true
  | JVal.arr _ => true
  | JVal.null => true
  | _ => false

/-- JS object spread of an arbitrary value (`{...request.body, ...}`):
an object spreads its fields, an array and a string spread index keys, and
primitives contribute nothing. -/
def spreadable : JVal → Obj
  | JVal.obj o => o
  | JVal.arr l => l.enum.map (fun iv => (toString iv.1, iv.2))
  | JVal.str s => s.data.enum.map (fun ic => (toString ic.1, JVal.str (String.mk [ic.2])))
  | _ => []

/-- JS property access `v.k` on an arbitrary value (`existingEntity.id`):
`undefined` unless an object field is present. -/
def jvField (v : JVal) (k : String) : JVal :=
  match v with
  | JVal.obj o => (lookupA o k).getD JVal.undef
  | _ => JVal.undef

/-! ## Runs: traces of observable calls with success or a thrown error -/

/-- An observable call made by a handler. -/
inductive Event where
  | findByIdCall (id : JVal)
  | findCall (filter : FindFilter) (opts : Option FindOpts)
  | assertValid (props : Obj)
  | shouldCreateCall (props : Obj)
  | shouldUpdateCall (props : Obj)
  | shouldDeleteCall (rec : JVal)
  | createOneCall (props : Obj)
  | updateOneCall (props : Obj)
  | replaceOneCall (props : Obj)
  | deleteOneCall (rec : JVal)
  | respond (status : Nat) (data : Option JVal)
  | didCreateCall (rec : JVal)
  | didUpdateCall (v : JVal)
  | didDeleteCall (rec : JVal)

/-- A handler run: the calls it made, and either success or the structured
error it threw (caught by the middleware adapter). -/
structure Run where
  trace : List Event
  result : Except JErr Unit

/-- Sequencing of the linear `await` pipeline: a thrown error
short-circuits everything after it. -/
def Run.seq (a b : Run) : Run :=
  match a.result with
  | Except.error _ => a
  | Except.ok _ => ⟨a.trace ++ b.trace, b.result⟩

/-- A single observable call that always succeeds. -/
def Run.emit (e : Event) : Run :=
  ⟨[e], Except.ok ()⟩

/-- A `Sert` assertion: no observable call, throws `err` unless `ok`. -/
def checkStep (ok : Bool) (err : JErr) : Run :=
  ⟨[], if ok then Except.ok () else Except.error err⟩

/-- Outcome of a hook call that either returns or throws. -/
def resOf (r : Option JErr) : Except JErr Unit :=
  match r with
  | some e => Except.error e
  | none => Except.ok ()

/-- `Entity.assertValid(props, {status: 400, ...})`: the external schema
engine either passes or throws its structured error. -/
def assertValidStep (E : Entity) (props : Obj) : Run :=
  ⟨[Event.assertValid props], resOf (E.assertValid props)⟩

/-- `Entity.shouldCreate && await Entity.shouldCreate(props, request)`. -/
def createGuardStep (E : Entity) (props : Obj) (req : Request) : Run :=
  match E.shouldCreate with
  | none => ⟨[], Except.ok ()⟩
  | some g => ⟨[Event.shouldCreateCall props], resOf (g props req)⟩

/-- `Entity.shouldUpdate && await Entity.shouldUpdate(props, request)`. -/
def updateGuardStep (E : Entity) (props : Obj) (req : Request) : Run :=
  match E.shouldUpdate with
  | none => ⟨[], Except.ok ()⟩
  | some g => ⟨[Event.shouldUpdateCall props], resOf (g props req)⟩

/-- `Entity.shouldDelete && await Entity.shouldDelete(entity, request)`. -/
def deleteGuardStep (E : Entity) (rec : JVal) (req : Request) : Run :=
  match E.shouldDelete with
  | none => ⟨[], Except.ok ()⟩
  | some g => ⟨[Event.shouldDeleteCall rec], resOf (g rec req)⟩

/-- `Entity.didCreate && Entity.didCreate(entity)` after the response. -/
def didCreateStep (E : Entity) (rec : JVal) : Run :=
  ⟨if E.didCreate then [Event.didCreateCall rec] else [], Except.ok ()⟩

/-- `Entity.didUpdate && Entity.didUpdate(exportEntity)` after the
response. -/
def didUpdateStep (E : Entity) (v : JVal) : Run :=
  ⟨if E.didUpdate then [Event.didUpdateCall v] else [], Except.ok ()⟩

/-- `Entity.didDelete && Entity.didDelete(entity)` after the response. -/
def didDeleteStep (E : Entity) (rec : JVal) : Run :=
  ⟨if E.didDelete then [Event.didDeleteCall rec] else [], Except.ok ()⟩

/-- `(spec.set || _.stubObject)(request)`. -/
def specSetOf (spec : SpecEP) (req : Request) : Obj :=
  (spec.set.getD (fun _ => [])) req

/-- `(spec.query || _.stubObject)(request)`. -/
def specQueryOf (spec : SpecEP) (req : Request) : FilterExpr :=
  (spec.query.getD (fun _ => [])) req

/-- `(Entity.exportOne || _.identity)(entity)`. -/
def exportOf (E : Entity) (v : JVal) : JVal :=
  (E.exportOne.getD (fun x => x)) v

/-- The merged filter passed to `Entity.find` by `getMany` and
`patchMany`. -/
def findArgOf (req : Request) (spec : SpecEP) : FindFilter :=
  ⟨filterConditions req.query, specQueryOf spec req⟩

/-- The 404 error thrown by `Sert.object` for a missing record. -/
def err404 : JErr := ⟨some 404, "Resource not found.", JVal.undef⟩

/-- The 400 error thrown by `Sert.string` for a missing entity id. -/
def err400EntityId : JErr := ⟨some 400, "Entity id is required.", JVal.undef⟩

/-- `new Error('Invalid patch')`: no status, no details. -/
def errInvalidPatch : JErr := ⟨none, "Invalid patch", JVal.undef⟩

/-! ## Candidate construction (the update-merge pipeline) -/

/-- The shared object literal of `putOne` / `patchOne` / `patchMany`:
`{...reconciled, ...setProps, id: forcedId, _embedded: undefined,
_links: undefined}`, evaluated left to right from an empty object. -/
def mergeCandidate (reconciled setProps : Obj) (forcedId : JVal) : Obj :=
  spreadA (spreadA (spreadA [] reconciled) setProps)
    [("id", forcedId), ("_embedded", JVal.undef), ("_links", JVal.undef)]

/-- The `postOne` object literal: `{...request.body, ...setProps,
_embedded: undefined, _links: undefined}` (no forced id on create). -/
def mergeCreate (bodyFields setProps : Obj) : Obj :=
  spreadA (spreadA (spreadA [] bodyFields) setProps)
    [("_embedded", JVal.undef), ("_links", JVal.undef)]

/-- `postOne`'s `createProps`:
`omitBy(isUndefined, (prepareCreate || identity)({...body, ...set, ...}))`. -/
def postOneCandidate (req : Request) (spec : SpecEP) (E : Entity) : Obj :=
  omitUndef ((E.prepareCreate.getD (fun x => x))
    (mergeCreate (spreadable req.body) (specSetOf spec req)))

/-- The object `postOne` validates: `{id: '123456789012345678901234',
...createProps}` — the synthetic placeholder id, overridden by a body id
when one is present. -/
def postOneValidated (req : Request) (spec : SpecEP) (E : Entity) : Obj :=
  spreadA (spreadA [] [("id", JVal.str "123456789012345678901234")])
    (postOneCandidate req spec E)

/-- The object handed to `prepareUpdate` by `putOne` (before
`omitBy(isUndefined)`). -/
def putOnePrepareInput (req : Request) (spec : SpecEP) (E : Entity) : Obj :=
  mergeCandidate
    (E.resetReadOnly req.body (E.findById req.urlParams.entityId))
    (specSetOf spec req)
    req.urlParams.entityId

/-- `putOne`'s `replaceProps`. -/
def putOneCandidate (req : Request) (spec : SpecEP) (E : Entity) : Obj :=
  omitUndef ((E.prepareUpdate.getD (fun x => x)) (putOnePrepareInput req spec E))

/-- The reconciled record of `patchOne`: `resetReadOnly(patchedEntity,
existing)` in the JSON-Patch branch (body an array), `resetReadOnly(body,
existing)` otherwise. -/
def patchOneReconciled (lib : JsonPatchLib) (req : Request) (E : Entity) : Obj :=
  match req.body with
  | JVal.arr _ =>
    E.resetReadOnly (lib.applyPatch (E.findById req.urlParams.entityId) req.body)
      (E.findById req.urlParams.entityId)
  | _ => E.resetReadOnly req.body (E.findById req.urlParams.entityId)

/-- The object handed to `prepareUpdate` by `patchOne` (either branch). -/
def patchOnePrepareInput (lib : JsonPatchLib) (req : Request) (spec : SpecEP)
    (E : Entity) : Obj :=
  mergeCandidate (patchOneReconciled lib req E) (specSetOf spec req)
    req.urlParams.entityId

/-- `patchOne`'s `updateProps` (identical construction in both branches). -/
def patchOneCandidate (lib : JsonPatchLib) (req : Request) (spec : SpecEP)
    (E : Entity) : Obj :=
  omitUndef ((E.prepareUpdate.getD (fun x => x)) (patchOnePrepareInput lib req spec E))

/-- The object handed to `prepareUpdate` for one matched record of
`patchMany`: the forced id is `existingEntity.id`, not a URL parameter. -/
def patchManyRecordPrepareInput (req : Request) (E : Entity) (setProps : Obj)
    (existing : JVal) : Obj :=
  mergeCandidate (E.resetReadOnly req.body existing) setProps (jvField existing "id")

/-- `patchMany`'s per-record `updateProps`. -/
def patchManyRecordCandidate (req : Request) (E : Entity) (setProps : Obj)
    (existing : JVal) : Obj :=
  omitUndef ((E.prepareUpdate.getD (fun x => x))
    (patchManyRecordPrepareInput req E setProps existing))

/-! ## The seven operation pipelines -/

/-- `EntityREST.getOne`: require a string `urlParams.entityId` (else the
400 error), `findById`, export, respond 200 — with no existence check on
the fetched record. -/
def getOne (req : Request) (spec : SpecEP) (E : Entity) : Run :=
  if jvIsString req.urlParams.entityId then
    ⟨[Event.findByIdCall req.urlParams.entityId,
      Event.respond 200 (some (exportOf E (E.findById req.urlParams.entityId)))],
     Except.ok ()⟩
  else ⟨[], Except.error err400EntityId⟩

/-- The export of the fetched collection: `Entity.exportMany` when present,
else per-item `exportOne || identity` over the array. -/
def exportManyOf (E : Entity) (v : JVal) : JVal :=
  match E.exportMany with
  | some f => f v
  | none =>
    match v with
    | JVal.arr l => JVal.arr (l.map (exportOf E))
    | x => x

/-- The `{limit, skip, sort}` options object of `getMany`. -/
def getManyOpts (query : Query) : FindOpts :=
  ⟨limitOf query, skipOf query, sortOf query⟩

/-- `EntityREST.getMany`: compute options, `find`, export, respond 200. -/
def getMany (req : Request) (spec : SpecEP) (E : Entity) : Run :=
  ⟨[Event.findCall (findArgOf req spec) (some (getManyOpts req.query)),
    Event.respond 200 (some (exportManyOf E
      (E.find (findArgOf req spec) (some (getManyOpts req.query)))))],
   Except.ok ()⟩

/-- `EntityREST.postOne`: build `createProps`, validate with the synthetic
placeholder id, optional `shouldCreate` guard, `createOne`, export, respond
201, optional post-commit `didCreate`. -/
def postOne (req : Request) (spec : SpecEP) (E : Entity) : Run :=
  (assertValidStep E (postOneValidated req spec E)).seq
  ((createGuardStep E (postOneCandidate req spec E) req).seq
  ((Run.emit (Event.createOneCall (postOneCandidate req spec E))).seq
  ((Run.emit (Event.respond 201
      (some (exportOf E (E.createOne (postOneCandidate req spec E)))))).seq
  (didCreateStep E (E.createOne (postOneCandidate req spec E))))))

/-- `EntityREST.putOne`: require the existing record (404), build
`replaceProps` with the forced URL id, validate, optional `shouldUpdate`
guard, `replaceOne`, export, respond 200, post-commit `didUpdate`. -/
def putOne (req : Request) (spec : SpecEP) (E : Entity) : Run :=
  (Run.emit (Event.findByIdCall req.urlParams.entityId)).seq
  ((checkStep (jvIsObject (E.findById req.urlParams.entityId)) err404).seq
  ((assertValidStep E (putOneCandidate req spec E)).seq
  ((updateGuardStep E (putOneCandidate req spec E) req).seq
  ((Run.emit (Event.replaceOneCall (putOneCandidate req spec E))).seq
  ((Run.emit (Event.respond 200
      (some (exportOf E (E.replaceOne (putOneCandidate req spec E)))))).seq
  (didUpdateStep E (exportOf E (E.replaceOne (putOneCandidate req spec E)))))))))

/-- The JSON-Patch structural validation of `patchOne`'s array branch:
`jsonPatch.validate(request.body, existingEntity)` followed by
`if (patchErrors && patchErrors > 0) throw new Error('Invalid patch')`.
No observable storage call; absent in the object branch. -/
def patchValidateStep (lib : JsonPatchLib) (req : Request) (existing : JVal) : Run :=
  match req.body with
  | JVal.arr _ =>
    ⟨[], if invalidPatchGuard (lib.validate req.body existing)
         then Except.error errInvalidPatch
         else Except.ok ()⟩
  | _ => ⟨[], Except.ok ()⟩

/-- `EntityREST.patchOne`: require the existing record (404); in the
JSON-Patch branch run the (dead, see `invalidPatchGuard_eq_false`)
structural validation and apply the patch; then the shared update pipeline:
validate, optional `shouldUpdate` guard, `updateOne`, export, respond 200,
post-commit `didUpdate`. -/
def patchOne (lib : JsonPatchLib) (req : Request) (spec : SpecEP) (E : Entity) : Run :=
  (Run.emit (Event.findByIdCall req.urlParams.entityId)).seq
  ((checkStep (jvIsObject (E.findById req.urlParams.entityId)) err404).seq
  ((patchValidateStep lib req (E.findById req.urlParams.entityId)).seq
  ((assertValidStep E (patchOneCandidate lib req spec E)).seq
  ((updateGuardStep E (patchOneCandidate lib req spec E) req).seq
  ((Run.emit (Event.updateOneCall (patchOneCandidate lib req spec E))).seq
  ((Run.emit (Event.respond 200
      (some (exportOf E (E.updateOne (patchOneCandidate lib req spec E)))))).seq
  (didUpdateStep E (exportOf E (E.updateOne (patchOneCandidate lib req spec E))))))))))

/-- One matched record's pipeline inside `patchMany`'s `Promise.all`:
build `updateProps` (forced id from the record), validate, optional
`shouldUpdate` guard, `updateOne`.  The export and the batch response
happen outside. -/
def patchManyRecord (req : Request) (E : Entity) (setProps : Obj)
    (existing : JVal) : Run :=
  (assertValidStep E (patchManyRecordCandidate req E setProps existing)).seq
  ((updateGuardStep E (patchManyRecordCandidate req E setProps existing) req).seq
  (Run.emit (Event.updateOneCall (patchManyRecordCandidate req E setProps existing))))

/-- The exported value of one `patchMany` record. -/
def patchManyRecordExport (req : Request) (E : Entity) (setProps : Obj)
    (existing : JVal) : JVal :=
  exportOf E (E.updateOne (patchManyRecordCandidate req E setProps existing))

/-- The first rejection of the fan-out (`Promise.all` rejects with it). -/
def firstErrOf (runs : List Run) : Option JErr :=
  runs.findSome? (fun r => match r.result with
    | Except.error e => some e
    | Except.ok _ => none)

/-- `EntityREST.patchMany`: fetch the matched set (no options argument);
`if (!existingEntities)` respond bare 200 — only a falsy result (never an
empty array, which is truthy) takes this branch; otherwise fan out the
per-record pipeline over the array, respond 200 with the exported array,
then post-commit `didUpdate` per export.  The concurrent fan-out is
serialized in record order here (each record's own ordering is faithful;
no claim depends on cross-record interleaving), and a truthy non-array
`find` result faults like the source's `.map` on a non-array would. -/
def patchMany (req : Request) (spec : SpecEP) (E : Entity) : Run :=
  let found := E.find (findArgOf req spec) none
  let pre := [Event.findCall (findArgOf req spec) none]
  if jvTruthy found then
    match found with
    | JVal.arr l =>
      let setProps := specSetOf spec req
      let runs := l.map (fun x => patchManyRecord req E setProps x)
      let tr := pre ++ (runs.map Run.trace).flatten
      match firstErrOf runs with
      | some e => ⟨tr, Except.error e⟩
      | none =>
        let exports := l.map (fun x => patchManyRecordExport req E setProps x)
        ⟨tr ++ [Event.respond 200 (some (JVal.arr exports))] ++
           (if E.didUpdate then exports.map Event.didUpdateCall else []),
         Except.ok ()⟩
    | _ => ⟨pre, Except.error ⟨none, "existingEntities.map is not a function", JVal.undef⟩⟩
  else ⟨pre ++ [Event.respond 200 none], Except.ok ()⟩

/-- `EntityREST.deleteOne`: require the existing record (404), optional
`shouldDelete` guard, `deleteOne`, respond 200 with an empty object,
post-commit `didDelete`. -/
def deleteOne (req : Request) (spec : SpecEP) (E : Entity) : Run :=
  (Run.emit (Event.findByIdCall req.urlParams.entityId)).seq
  ((checkStep (jvIsObject (E.findById req.urlParams.entityId)) err404).seq
  ((deleteGuardStep E (E.findById req.urlParams.entityId) req).seq
  ((Run.emit (Event.deleteOneCall (E.findById req.urlParams.entityId))).seq
  ((Run.emit (Event.respond 200 (some (JVal.obj [])))).seq
  (didDeleteStep E (E.findById req.urlParams.entityId))))))

/-! ## Middleware adapter (`EntityREST.express`) -/

/-- What the transport writes for one `respond(status, data)` call: the
`data` argument defaults to `{}`; an object-typed value is serialized as
`application/hal+json`, anything else is sent raw (`data || ''`). -/
structure HttpOut where
  status : Nat
  json : Bool
  body : JVal

/-- The `respond` helper of the middleware adapter. -/
def respondAction (status : Nat) (data : Option JVal) : HttpOut :=
  let d := data.getD (JVal.obj [])
  if jvTypeofObject d then ⟨status, true, d⟩
  else ⟨status, false, if jvTruthy d then d else JVal.str ""⟩

/-- The status-inference wrapper of the middleware adapter: an error whose
`status` is truthy is re-thrown unchanged; otherwise a fresh error with the
given status, the original message and the original details. -/
def remapStatus (e : JErr) (newStatus : Nat) : JErr :=
  if statusTruthy e.status then e
  else ⟨some newStatus, e.message, e.details⟩

/-- The endpoint stage of `express`: the operation's own thrown error is
forwarded untouched. -/
def expressRunStage (endpoint : Request → Run) (req : Request) : Option JErr :=
  match (endpoint req).result with
  | Except.error e => some e
  | Except.ok _ => none

/-- The validation stage of `express`: a failure without a pre-set (truthy)
status is re-raised as 400. -/
def expressValidateStage (endpoint : Request → Run) (spec : SpecEP)
    (req : Request) : Option JErr :=
  match spec.validate with
  | some v =>
    match v req with
    | some e => some (remapStatus e 400)
    | none => expressRunStage endpoint req
  | none => expressRunStage endpoint req

/-- `EntityREST.express(endpointFunction, spec, ...)` as the error it
forwards to the transport's error channel (`next(error)`), `none` when the
request completes cleanly: authenticate (failures remapped to 401), then
validate (remapped to 400), then the endpoint. -/
def express (endpoint : Request → Run) (spec : SpecEP) (req : Request) : Option JErr :=
  match spec.authenticate with
  | some a =>
    match a req with
    | some e => some (remapStatus e 401)
    | none => expressValidateStage endpoint spec req
  | none => expressValidateStage endpoint spec req

/-! ## Supporting lemmas on runs -/

theorem mem_seq_trace (a b : Run) (e : Event) :
    e ∈ (a.seq b).trace ↔
      e ∈ a.trace ∨ (a.result = Except.ok () ∧ e ∈ b.trace) := by
  match h : a.result with
  | Except.error err => simp [Run.seq, h]
  | Except.ok u => cases u; simp [Run.seq, h]

theorem seq_result (a b : Run) :
    (a.seq b).result =
      match a.result with
      | Except.error err => Except.error err
      | Except.ok _ => b.result := by
  match h : a.result with
  | Except.error err => simp [Run.seq, h]
  | Except.ok u => simp [Run.seq, h]

/-! ## C3 — the sort computed by `getMany` -/

/-- C3 counterexample: with no `sort` in the query the source sorts
ascending on the field named `_id`, not on the field named `id` as the
claim states. -/
theorem sortOf_default_counterexample :
    sortOf [] = ("_id", 1) ∧ sortOf [] ≠ ("id", (1 : Int)) := by
  constructor
  · rfl
  · intro h
    have : "_id" = "id" := congrArg Prod.fst h
    simp at this

/-- C3 (amended): for a non-empty `sort` value of the form `-f` the sort
passed to `Entity.find` is descending on `f`; for a plain field name it is
ascending on it; with `sort` absent it is ascending on the field named
`_id` (the claim said `id`).  Field names are line-terminator-free, which
is what the source's `/^(-?)(.*)$/` match requires; `getMany` passes
exactly `sortOf` in its `find` options. -/
theorem getMany_sort_amended :
    (∀ query f, lookupA query "sort" = some (QVal.str ("-" ++ f)) →
      strDotOk f = true → sortOf query = (f, -1))
    ∧ (∀ query f, lookupA query "sort" = some (QVal.str f) → f ≠ "" →
        f.data.head? ≠ some '-' → strDotOk f = true → sortOf query = (f, 1))
    ∧ (∀ query, lookupA query "sort" = none → sortOf query = ("_id", 1))
    ∧ (∀ req spec E, Event.findCall (findArgOf req spec)
        (some ⟨limitOf req.query, skipOf req.query, sortOf req.query⟩)
        ∈ (getMany req spec E).trace) := by
  refine ⟨?_, ?_, ?_, ?_⟩
  · intro query f h hdot
    obtain ⟨fd⟩ := f
    have hdata : ("-" ++ String.mk fd).data = '-' :: fd := by
      simp [String.data_append]
    have hne : ("-" ++ String.mk fd) ≠ "" := by
      intro hc
      have := congrArg String.data hc
      rw [hdata] at this
      simp at this
    have hdot2 : strDotOk ("-" ++ String.mk fd) = true := by
      simp only [strDotOk, hdata, List.all_cons]
      simp only [strDotOk] at hdot
      simp [jsDotOk, hdot]
    simp only [sortOf, h, hne, if_false, hdot2, if_true, hdata]
  · intro query f h hne hhead hdot
    simp only [sortOf, h, hne, if_false, hdot, if_true]
    split
    · next rest heq =>
      exact absurd (show f.data.head? = some '-' by rw [heq]; rfl) hhead
    · rfl
  · intro query h
    simp [sortOf, h]
  · intro req spec E
    simp [getMany, getManyOpts]

/-- C3 witness: the amended theorem at concrete queries — `sort=-age`
descending, `sort=age` ascending, no `sort` ascending on `_id`. -/
theorem getMany_sort_amended_witness :
    sortOf [("sort", QVal.str "-age")] = ("age", -1)
    ∧ sortOf [("sort", QVal.str "age")] = ("age", 1)
    ∧ sortOf [] = ("_id", 1) := by
  refine ⟨?_, ?_, ?_⟩
  · exact getMany_sort_amended.1 [("sort", QVal.str "-age")] "age" rfl (by decide)
  · exact getMany_sort_amended.2.1 [("sort", QVal.str "age")] "age" rfl
      (by decide) (by decide) (by decide)
  · exact getMany_sort_amended.2.2.1 [] rfl

/-! ## C7 — the limit computed by `getMany` -/

/-- The limit formula asserted by the claim, following the spec's words:
`min(parseInt(query.limit), 500)` whenever `limit` is present, `25` only
when it is absent. -/
def claimedLimit (query : Query) : JNum :=
  match lookupA query "limit" with
  | some (QVal.str s) => jsMin (parseIntStr s) (JNum.int 500)
  | _ => JNum.int 25

/-- C7 counterexample: with `limit` present but empty (`?limit=`), the
source's `query.limit || 25` falls back to 25, while the claimed formula
`min(parseInt(query.limit), 500)` is `min(NaN, 500) = NaN`. -/
theorem getMany_limit_counterexample :
    limitOf [("limit", QVal.str "")] = JNum.int 25
    ∧ claimedLimit [("limit", QVal.str "")] = JNum.nan
    ∧ limitOf [("limit", QVal.str "")] ≠ claimedLimit [("limit", QVal.str "")] := by
  refine ⟨by decide, by decide, by decide⟩

/-- C7 (amended): the limit passed to `Entity.find` equals
`min(parseInt(query.limit), 500)` when `query.limit` is present and
non-empty, and 25 when it is absent or empty; in particular `limit=9999`
yields 500 and no `limit` yields 25. -/
theorem getMany_limit_amended :
    (∀ query s, lookupA query "limit" = some (QVal.str s) → s ≠ "" →
      limitOf query = jsMin (parseIntStr s) (JNum.int 500))
    ∧ (∀ query, lookupA query "limit" = none → limitOf query = JNum.int 25)
    ∧ (∀ query, lookupA query "limit" = some (QVal.str "") → limitOf query = JNum.int 25)
    ∧ limitOf [("limit", QVal.str "9999")] = JNum.int 500
    ∧ limitOf [] = JNum.int 25 := by
  refine ⟨?_, ?_, ?_, by decide, by decide⟩
  · intro query s h hne
    simp [limitOf, h, hne]
  · intro query h
    simp only [limitOf, h]
    decide
  · intro query h
    simp only [limitOf, h]
    decide

/-- C7 witness: the amended limit formula applied at `limit=9999`. -/
theorem getMany_limit_amended_witness :
    limitOf [("limit", QVal.str "9999")] = jsMin (parseIntStr "9999") (JNum.int 500) :=
  getMany_limit_amended.1 [("limit", QVal.str "9999")] "9999" rfl (by decide)

/-! ## C6 — the query-to-filter translation -/

/-- The per-key result asserted for the translated conditions: nothing for
reserved keys, `condOf` of the value for non-reserved keys with a defined
(string) value. -/
def condLookup (query : Query) (k : String) : Option FVal :=
  if reservedKey k then none
  else
    match lookupA query k with
    | some (QVal.str s) => some (condOf s)
    | _ => none

theorem lookupA_foldl_condStep (query : Query) (acc : FilterExpr) (k : String)
    (h : (keysA query).Nodup) :
    lookupA (query.foldl condStep acc) k =
      oElse (condLookup query k) (lookupA acc k) := by
  induction query generalizing acc with
  | nil => simp [condLookup, lookupA, oElse]
  | cons kv retain ih =>
    obtain ⟨p, v⟩ := kv
    simp only [keysA, List.map_cons, List.nodup_cons] at h
    have hrest : (keysA retain).Nodup := h.2
    rw [List.foldl_cons, ih (condStep acc (p, v)) hrest]
    by_cases hk : k = p
    · subst hk
      have hnone : lookupA retain k = none :=
        lookupA_of_not_mem retain k (by simpa [keysA] using h.1)
      have hcnone : condLookup retain k = none := by
        simp [condLookup, hnone]
      rw [hcnone]
      by_cases hres : reservedKey k = true
      · simp [condStep, condLookup, hres, oElse, lookupA]
      · simp only [Bool.not_eq_true] at hres
        match v with
        | QVal.undef =>
          simp [condStep, condLookup, hres, oElse, lookupA]
        | QVal.str s =>
          simp [condStep, condLookup, hres, oElse, lookupA, lookupA_setA]
    · have h2 : ¬ p = k := fun hc => hk hc.symm
      have hacc : lookupA (condStep acc (p, v)) k = lookupA acc k := by
        by_cases hres : reservedKey p = true
        · simp [condStep, hres]
        · simp only [Bool.not_eq_true] at hres
          match v with
          | QVal.undef => simp [condStep, hres]
          | QVal.str s => simp [condStep, hres, lookupA_setA, hk]
      rw [hacc]
      have hcons : condLookup ((p, v) :: retain) k = condLookup retain k := by
        simp [condLookup, lookupA, h2]
      rw [hcons]

/-- C6 counterexample: with `q` present but empty (`?q=&a=x`), the source
does not return the parse of `query.q` — the falsy empty string skips the
escape hatch and the other keys are translated instead. -/
theorem filterConditions_empty_q_counterexample :
    filterConditions [("q", QVal.str ""), ("a", QVal.str "x")]
      = FilterResult.conds [("a", FVal.s "x")]
    ∧ filterConditions [("q", QVal.str ""), ("a", QVal.str "x")]
      ≠ FilterResult.parsedQ "" := by
  refine ⟨by decide, by decide⟩

/-- C6 (amended): if `q` is present with a non-empty value the result is
the parse of `query.q` verbatim, ignoring every other key; otherwise
(absent, undefined-valued or empty `q`) the result maps exactly the
non-reserved keys with a defined value, each translated by `condOf`
(`"undefined"` to an existence-false predicate, `"true"`/`"false"` to the
boolean, a `/pat/flags` literal to a set-membership predicate wrapping one
compiled pattern with those flags, anything else to literal string
equality). -/
theorem filterConditions_amended (query : Query) (h : (keysA query).Nodup) :
    (∀ s, lookupA query "q" = some (QVal.str s) → s ≠ "" →
      filterConditions query = FilterResult.parsedQ s)
    ∧ (qEscape query = none →
        filterConditions query = FilterResult.conds (reduceConds query)
        ∧ ∀ k, lookupA (reduceConds query) k = condLookup query k) := by
  constructor
  · intro s hq hne
    simp [filterConditions, qEscape, hq, hne]
  · intro hq
    refine ⟨by simp [filterConditions, hq], ?_⟩
    intro k
    have := lookupA_foldl_condStep query [] k h
    rw [show reduceConds query = query.foldl condStep [] from rfl, this]
    cases hc : condLookup query k <;> simp [oElse, lookupA, hc]

/-- C6 witness: the amended characterization at a concrete query —
`status=true` becomes the boolean predicate and the reserved key `limit`
is dropped. -/
theorem filterConditions_amended_witness :
    lookupA (reduceConds [("status", QVal.str "true"), ("limit", QVal.str "5")]) "status"
      = some (FVal.b true)
    ∧ lookupA (reduceConds [("status", QVal.str "true"), ("limit", QVal.str "5")]) "limit"
      = none := by
  have h := (filterConditions_amended
    [("status", QVal.str "true"), ("limit", QVal.str "5")] (by decide)).2 (by decide)
  constructor
  · rw [h.2 "status"]; decide
  · rw [h.2 "limit"]; decide

/-! ## C8 — the middleware adapter's status inference -/

/-- A trivially succeeding endpoint, used to exercise the adapter. -/
def trivialEndpoint : Request → Run := fun _ => ⟨[], Except.ok ()⟩

/-- A request with nothing in it. -/
def emptyReq : Request := ⟨⟨JVal.undef⟩, [], JVal.obj []⟩

/-- An endpoint specification whose `authenticate` throws an error that
carries the (falsy) status `0`. -/
def statusZeroSpec : SpecEP :=
  ⟨some (fun _ => some ⟨some 0, "boom", JVal.undef⟩), none, none, none⟩

/-- C8 counterexample: an authenticate failure that carries the status `0`
is not forwarded unchanged — `if (e.status)` is falsy for `0`, so the
adapter re-raises it as 401. -/
theorem express_status_zero_counterexample :
    express trivialEndpoint statusZeroSpec emptyReq
      = some ⟨some 401, "boom", JVal.undef⟩
    ∧ (some 401 : Option Nat) ≠ some 0 := by
  exact ⟨rfl, by decide⟩

/-- The authenticate stage passes (absent, or present and returning). -/
def authPasses (spec : SpecEP) (req : Request) : Prop :=
  match spec.authenticate with
  | none => True
  | some a => a req = none

/-- C8 (amended): an authenticate failure whose status is falsy (absent —
or the pathological `0`) is forwarded with status 401 and the original
message and details; one with a truthy status is forwarded unchanged; the
validate stage behaves the same with 400. -/
theorem express_status_mapping_amended :
    (∀ endpoint spec req a e, spec.authenticate = some a → a req = some e →
      statusTruthy e.status = false →
      express endpoint spec req = some ⟨some 401, e.message, e.details⟩)
    ∧ (∀ endpoint spec req a e n, spec.authenticate = some a → a req = some e →
      e.status = some n → n ≠ 0 → express endpoint spec req = some e)
    ∧ (∀ endpoint spec req v e, authPasses spec req → spec.validate = some v →
      v req = some e → statusTruthy e.status = false →
      express endpoint spec req = some ⟨some 400, e.message, e.details⟩)
    ∧ (∀ endpoint spec req v e n, authPasses spec req → spec.validate = some v →
      v req = some e → e.status = some n → n ≠ 0 →
      express endpoint spec req = some e) := by
  refine ⟨?_, ?_, ?_, ?_⟩
  · intro endpoint spec req a e ha hae hst
    simp [express, ha, hae, remapStatus, hst]
  · intro endpoint spec req a e n ha hae hst hn
    simp [express, ha, hae, remapStatus, statusTruthy, hst, hn]
  · intro endpoint spec req v e hp hv hve hst
    have hstage : expressValidateStage endpoint spec req
        = some ⟨some 400, e.message, e.details⟩ := by
      simp [expressValidateStage, hv, hve, remapStatus, hst]
    match hs : spec.authenticate with
    | none => simp [express, hs, hstage]
    | some a =>
      have hpa : a req = none := by
        simp only [authPasses, hs] at hp
        exact hp
      simp [express, hs, hpa, hstage]
  · intro endpoint spec req v e n hp hv hve hst hn
    have hstage : expressValidateStage endpoint spec req = some e := by
      simp [expressValidateStage, hv, hve, remapStatus, statusTruthy, hst, hn]
    match hs : spec.authenticate with
    | none => simp [express, hs, hstage]
    | some a =>
      have hpa : a req = none := by
        simp only [authPasses, hs] at hp
        exact hp
      simp [express, hs, hpa, hstage]

/-- An endpoint specification whose `authenticate` throws without any
status. -/
def statusFreeSpec : SpecEP :=
  ⟨some (fun _ => some ⟨none, "nope", JVal.str "why"⟩), none, none, none⟩

/-- C8 witness: the amended mapping at a concrete status-free authenticate
failure — forwarded as 401 with message and details preserved. -/
theorem express_status_mapping_amended_witness :
    express trivialEndpoint statusFreeSpec emptyReq
      = some ⟨some 401, "nope", JVal.str "why"⟩ :=
  express_status_mapping_amended.1 trivialEndpoint statusFreeSpec emptyReq
    (fun _ => some ⟨none, "nope", JVal.str "why"⟩) ⟨none, "nope", JVal.str "why"⟩
    rfl rfl rfl

/-! ## Shared concrete instances for witnesses -/

/-- A stored record used by the concrete scenarios. -/
def stdRecord : JVal := JVal.obj [("id", JVal.str "42"), ("name", JVal.str "a")]

/-- A minimal Entity: every required capability total and permissive, no
optional hook present, a schema with no read-only fields
(`resetReadOnly` keeps the incoming value). -/
def baseEntity : Entity where
  findById := fun _ => stdRecord
  find := fun _ _ => JVal.arr []
  resetReadOnly := fun incoming _ => spreadable incoming
  assertValid := fun _ => none
  prepareCreate := none
  prepareUpdate := none
  shouldCreate := none
  shouldUpdate := none
  shouldDelete := none
  createOne := fun p => JVal.obj p
  updateOne := fun p => JVal.obj p
  replaceOne := fun p => JVal.obj p
  exportOne := none
  exportMany := none
  didCreate := false
  didUpdate := false
  didDelete := false

/-- An endpoint specification with no optional capability. -/
def noneSpec : SpecEP := ⟨none, none, none, none⟩

/-- A request on `/:entityId = 42` with the given body and no query. -/
def reqWithBody (body : JVal) : Request := ⟨⟨JVal.str "42"⟩, [], body⟩

/-! ## C9 — `getOne`: 400 on a non-string id, no 404 on a null record -/

/-- C9: if `urlParams.entityId` is not a string, `getOne` fails with the
400 error and `findById` is never called; if it is a string and `findById`
returns `null`, no error is raised — the run succeeds and responds 200 with
the export of the null result. -/
theorem getOne_id_and_null_behavior (req : Request) (spec : SpecEP) (E : Entity) :
    (jvIsString req.urlParams.entityId = false →
      (getOne req spec E).result = Except.error err400EntityId
      ∧ ∀ x, Event.findByIdCall x ∉ (getOne req spec E).trace)
    ∧ (∀ s, req.urlParams.entityId = JVal.str s → E.findById (JVal.str s) = JVal.null →
      (getOne req spec E).result = Except.ok ()
      ∧ Event.respond 200 (some (exportOf E JVal.null)) ∈ (getOne req spec E).trace) := by
  constructor
  · intro h
    constructor
    · simp [getOne, h]
    · intro x
      simp [getOne, h]
  · intro s hid hnull
    constructor
    · simp [getOne, hid, jvIsString]
    · simp [getOne, hid, jvIsString, hnull]

/-- An Entity whose `findById` finds nothing (returns `null`). -/
def nullFindEntity : Entity := { baseEntity with findById := fun _ => JVal.null }

/-- C9 witness: the theorem at a concrete request whose record is absent —
`getOne` succeeds and responds 200 with the exported `null`. -/
theorem getOne_id_and_null_behavior_witness :
    (getOne (reqWithBody (JVal.obj [])) noneSpec nullFindEntity).result = Except.ok ()
    ∧ Event.respond 200 (some (exportOf nullFindEntity JVal.null))
        ∈ (getOne (reqWithBody (JVal.obj [])) noneSpec nullFindEntity).trace :=
  (getOne_id_and_null_behavior (reqWithBody (JVal.obj [])) noneSpec nullFindEntity).2
    "42" rfl rfl

/-! ## C2 — `patchMany` with an empty matched set -/

/-- C2 counterexample: when `find` returns an empty array, `patchMany`
does not respond with no body — `![]` is false in JS, so the bare
`respond(200)` branch is skipped and the fan-out over zero records
responds 200 with an empty-array JSON body. -/
theorem patchMany_empty_array_counterexample :
    Event.respond 200 (some (JVal.arr []))
      ∈ (patchMany (reqWithBody (JVal.obj [])) noneSpec baseEntity).trace
    ∧ Event.respond 200 none
      ∉ (patchMany (reqWithBody (JVal.obj [])) noneSpec baseEntity).trace := by
  constructor
  · show Event.respond 200 (some (JVal.arr []))
      ∈ [Event.findCall (findArgOf (reqWithBody (JVal.obj [])) noneSpec) none,
         Event.respond 200 (some (JVal.arr []))]
    simp
  · show Event.respond 200 none
      ∉ [Event.findCall (findArgOf (reqWithBody (JVal.obj [])) noneSpec) none,
         Event.respond 200 (some (JVal.arr []))]
    simp

/-- C2 (amended): if the filter matches no records — `find` returns an
empty array — `patchMany` responds 200 with an empty-array JSON body (not
"no body") and no per-record pipeline runs, so `updateOne` is never
called; the bare `respond(200)` branch fires only when `find` returns a
falsy value such as `null`, and even that call carries the defaulted `{}`
JSON body at the transport (`respondAction 200 none`). -/
theorem patchMany_empty_amended (req : Request) (spec : SpecEP) (E : Entity) :
    (E.find (findArgOf req spec) none = JVal.arr [] →
      (patchMany req spec E).trace
        = [Event.findCall (findArgOf req spec) none,
           Event.respond 200 (some (JVal.arr []))]
      ∧ (patchMany req spec E).result = Except.ok ()
      ∧ ∀ p, Event.updateOneCall p ∉ (patchMany req spec E).trace)
    ∧ (E.find (findArgOf req spec) none = JVal.null →
      (patchMany req spec E).trace
        = [Event.findCall (findArgOf req spec) none, Event.respond 200 none]
      ∧ (patchMany req spec E).result = Except.ok ()
      ∧ ∀ p, Event.updateOneCall p ∉ (patchMany req spec E).trace)
    ∧ respondAction 200 none = ⟨200, true, JVal.obj []⟩ := by
  refine ⟨?_, ?_, rfl⟩
  · intro hfind
    have htr : patchMany req spec E
        = ⟨[Event.findCall (findArgOf req spec) none,
            Event.respond 200 (some (JVal.arr []))], Except.ok ()⟩ := by
      simp [patchMany, hfind, jvTruthy, firstErrOf, patchManyRecordExport]
    rw [htr]
    refine ⟨rfl, rfl, ?_⟩
    intro p
    simp
  · intro hfind
    have htr : patchMany req spec E
        = ⟨[Event.findCall (findArgOf req spec) none, Event.respond 200 none],
           Except.ok ()⟩ := by
      simp [patchMany, hfind, jvTruthy]
    rw [htr]
    refine ⟨rfl, rfl, ?_⟩
    intro p
    simp

/-- C2 witness: the amended theorem at a concrete empty match —
`baseEntity.find` returns `[]`, the response is the empty-array body and
`updateOne` for an empty props object is absent from the trace. -/
theorem patchMany_empty_amended_witness :
    (patchMany (reqWithBody (JVal.obj [])) noneSpec baseEntity).result = Except.ok ()
    ∧ Event.updateOneCall []
        ∉ (patchMany (reqWithBody (JVal.obj [])) noneSpec baseEntity).trace := by
  have h := (patchMany_empty_amended (reqWithBody (JVal.obj [])) noneSpec baseEntity).1 rfl
  exact ⟨h.2.1, h.2.2 []⟩

/-! ## The update-merge characterization (C5, C10) -/

theorem oElse_none {α : Type} (a : Option α) : oElse a none = a := by
  cases a <;> rfl

theorem dropUndef_of_ne (v : JVal) (h : v ≠ JVal.undef) : dropUndef v = some v := by
  cases v
  · exact absurd rfl h
  all_goals rfl

/-- The trailing literal fields `id`, `_embedded`, `_links` of the update
merges. -/
def trailingFields (fid : JVal) : Obj :=
  [("id", fid), ("_embedded", JVal.undef), ("_links", JVal.undef)]

theorem nodup_keysA_trailingFields (fid : JVal) :
    (keysA (trailingFields fid)).Nodup := by
  have h : keysA (trailingFields fid) = ["id", "_embedded", "_links"] := rfl
  rw [h]
  decide

theorem mergeCandidate_eq_spread (r s : Obj) (fid : JVal) :
    mergeCandidate r s fid = spreadA (spreadA (spreadA [] r) s) (trailingFields fid) := rfl

theorem nodup_keysA_mergeCandidate (r s : Obj) (fid : JVal) :
    (keysA (mergeCandidate r s fid)).Nodup := by
  rw [mergeCandidate_eq_spread]
  exact nodup_keysA_spreadA _ _ (nodup_keysA_spreadA _ _
    (nodup_keysA_spreadA [] r (by simp [keysA])))

theorem lookupA_mergeCandidate_id (r s : Obj) (fid : JVal) :
    lookupA (mergeCandidate r s fid) "id" = some fid := by
  rw [mergeCandidate_eq_spread,
    lookupA_spreadA _ _ _ (nodup_keysA_trailingFields fid)]
  rfl

theorem lookupA_mergeCandidate (r s : Obj) (fid : JVal) (k : String)
    (hs : (keysA s).Nodup) (hr : (keysA r).Nodup) :
    lookupA (mergeCandidate r s fid) k =
      if k = "id" then some fid
      else if k = "_embedded" ∨ k = "_links" then some JVal.undef
      else oElse (lookupA s k) (lookupA r k) := by
  rw [mergeCandidate_eq_spread,
    lookupA_spreadA _ _ _ (nodup_keysA_trailingFields fid),
    lookupA_spreadA _ _ _ hs,
    lookupA_spreadA _ _ _ hr]
  have hnil : lookupA ([] : Obj) k = none := rfl
  rw [hnil, oElse_none]
  by_cases h1 : k = "id"
  · subst h1
    simp [trailingFields, lookupA, oElse]
  · by_cases h2 : k = "_embedded"
    · subst h2
      simp [trailingFields, lookupA, oElse]
    · by_cases h3 : k = "_links"
      · subst h3
        simp [trailingFields, lookupA, oElse]
      · have e1 : ¬ "id" = k := fun hc => h1 hc.symm
        have e2 : ¬ "_embedded" = k := fun hc => h2 hc.symm
        have e3 : ¬ "_links" = k := fun hc => h3 hc.symm
        simp [trailingFields, lookupA, e1, e2, e3, h1, h2, h3]
        rfl

/-- The per-key candidate value the claim asserts (stated from the spec's
words): nothing for `_embedded`/`_links`, the forced id for `id` (stripped
only if the forced id is itself undefined), otherwise a defined `set()`
value first, the reconciled value second, with undefined-valued keys
removed. -/
def specCandidateLookup (r s : Obj) (fid : JVal) (k : String) : Option JVal :=
  if k = "_embedded" ∨ k = "_links" then none
  else if k = "id" then dropUndef fid
  else (oElse (lookupA s k) (lookupA r k)).bind dropUndef

theorem lookupA_omitUndef_mergeCandidate (r s : Obj) (fid : JVal) (k : String)
    (hs : (keysA s).Nodup) (hr : (keysA r).Nodup) :
    lookupA (omitUndef (mergeCandidate r s fid)) k =
      specCandidateLookup r s fid k := by
  rw [lookupA_omitUndef _ _ (nodup_keysA_mergeCandidate r s fid),
    lookupA_mergeCandidate r s fid k hs hr]
  by_cases h1 : k = "id"
  · subst h1
    simp [specCandidateLookup, Option.bind]
  · by_cases h2 : k = "_embedded" ∨ k = "_links"
    · simp [specCandidateLookup, h1, h2, Option.bind, dropUndef]
    · simp [specCandidateLookup, h1, h2]

/-- C10: merge precedence of candidate construction.  With `prepareUpdate`
absent, the candidate of `putOne`, of `patchOne` (either branch: the
reconciled object is `resetReadOnly` of the body or of the patched
document), and of each `patchMany` record is, per key: nothing for
`_embedded`/`_links`; the forced id for `id`; otherwise a defined `set()`
value — including for a read-only field — overriding the reconciled value,
with every undefined-valued key removed (the last conjunct states the
override consequence explicitly). -/
theorem update_candidate_merge_precedence (lib : JsonPatchLib) (req : Request)
    (spec : SpecEP) (E : Entity) (setProps : Obj) (existing : JVal)
    (hprep : E.prepareUpdate = none) :
    ((keysA (specSetOf spec req)).Nodup →
      ((keysA (E.resetReadOnly req.body (E.findById req.urlParams.entityId))).Nodup →
        ∀ k, lookupA (putOneCandidate req spec E) k
          = specCandidateLookup
              (E.resetReadOnly req.body (E.findById req.urlParams.entityId))
              (specSetOf spec req) req.urlParams.entityId k)
      ∧ ((keysA (patchOneReconciled lib req E)).Nodup →
        ∀ k, lookupA (patchOneCandidate lib req spec E) k
          = specCandidateLookup (patchOneReconciled lib req E) (specSetOf spec req)
              req.urlParams.entityId k))
    ∧ ((keysA setProps).Nodup →
        (keysA (E.resetReadOnly req.body existing)).Nodup →
        ∀ k, lookupA (patchManyRecordCandidate req E setProps existing) k
          = specCandidateLookup (E.resetReadOnly req.body existing) setProps
              (jvField existing "id") k)
    ∧ (∀ k v, (keysA (specSetOf spec req)).Nodup →
        (keysA (E.resetReadOnly req.body (E.findById req.urlParams.entityId))).Nodup →
        ¬ (k = "id" ∨ k = "_embedded" ∨ k = "_links") →
        lookupA (specSetOf spec req) k = some v → v ≠ JVal.undef →
        lookupA (putOneCandidate req spec E) k = some v) := by
  have hput : ∀ k, (keysA (specSetOf spec req)).Nodup →
      (keysA (E.resetReadOnly req.body (E.findById req.urlParams.entityId))).Nodup →
      lookupA (putOneCandidate req spec E) k
        = specCandidateLookup
            (E.resetReadOnly req.body (E.findById req.urlParams.entityId))
            (specSetOf spec req) req.urlParams.entityId k := by
    intro k hs hr
    rw [putOneCandidate, hprep]
    exact lookupA_omitUndef_mergeCandidate _ _ _ k hs hr
  refine ⟨fun hs => ⟨fun hr k => hput k hs hr, ?_⟩, ?_, ?_⟩
  · intro hr k
    rw [patchOneCandidate, hprep]
    exact lookupA_omitUndef_mergeCandidate _ _ _ k hs hr
  · intro hs hr k
    rw [patchManyRecordCandidate, hprep]
    exact lookupA_omitUndef_mergeCandidate _ _ _ k hs hr
  · intro k v hs hr hk hset hv
    rw [hput k hs hr]
    have h1 : ¬ (k = "_embedded" ∨ k = "_links") := fun hc => hk (Or.inr hc)
    have h2 : ¬ k = "id" := fun hc => hk (Or.inl hc)
    simp only [specCandidateLookup, h1, h2, if_false, hset, oElse]
    simp [dropUndef_of_ne v hv]

/-- A `set()` result forcing the read-only field `locked`. -/
def lockedSetSpec : SpecEP :=
  ⟨none, none, none, some (fun _ => [("locked", JVal.str "yes")])⟩

/-- C10 witness: with a body submitting `locked: "no"`, a defined `set()`
value for `locked` wins in the final `putOne` candidate. -/
theorem update_candidate_merge_precedence_witness :
    lookupA
      (putOneCandidate
        (reqWithBody (JVal.obj [("locked", JVal.str "no"), ("x", JVal.str "1")]))
        lockedSetSpec baseEntity)
      "locked" = some (JVal.str "yes") := by
  have h := (update_candidate_merge_precedence
    ⟨fun _ _ => none, fun d _ => d⟩
    (reqWithBody (JVal.obj [("locked", JVal.str "no"), ("x", JVal.str "1")]))
    lockedSetSpec baseEntity [] JVal.null rfl).2.2
    "locked" (JVal.str "yes") (by decide) (by decide)
    (by decide) rfl (by intro hc; cases hc)
  exact h

/-! ## C4 — guards run after validation and block mutation -/

theorem mem_updateGuardStep (E : Entity) (props : Obj) (req : Request) (e : Event) :
    e ∈ (updateGuardStep E props req).trace ↔
      (∃ g, E.shouldUpdate = some g) ∧ e = Event.shouldUpdateCall props := by
  cases hg : E.shouldUpdate <;> simp [updateGuardStep, hg]

theorem mem_createGuardStep (E : Entity) (props : Obj) (req : Request) (e : Event) :
    e ∈ (createGuardStep E props req).trace ↔
      (∃ g, E.shouldCreate = some g) ∧ e = Event.shouldCreateCall props := by
  cases hg : E.shouldCreate <;> simp [createGuardStep, hg]

theorem mem_deleteGuardStep (E : Entity) (rec : JVal) (req : Request) (e : Event) :
    e ∈ (deleteGuardStep E rec req).trace ↔
      (∃ g, E.shouldDelete = some g) ∧ e = Event.shouldDeleteCall rec := by
  cases hg : E.shouldDelete <;> simp [deleteGuardStep, hg]

theorem mem_didCreateStep (E : Entity) (rec : JVal) (e : Event) :
    e ∈ (didCreateStep E rec).trace ↔
      E.didCreate = true ∧ e = Event.didCreateCall rec := by
  cases h : E.didCreate <;> simp [didCreateStep, h]

theorem mem_didUpdateStep (E : Entity) (v : JVal) (e : Event) :
    e ∈ (didUpdateStep E v).trace ↔
      E.didUpdate = true ∧ e = Event.didUpdateCall v := by
  cases h : E.didUpdate <;> simp [didUpdateStep, h]

theorem mem_didDeleteStep (E : Entity) (rec : JVal) (e : Event) :
    e ∈ (didDeleteStep E rec).trace ↔
      E.didDelete = true ∧ e = Event.didDeleteCall rec := by
  cases h : E.didDelete <;> simp [didDeleteStep, h]

/-- The JSON-Patch structural validation step can never fail (its guard is
the dead `patchErrors && patchErrors > 0` comparison), and it makes no
observable call. -/
theorem patchValidateStep_run (lib : JsonPatchLib) (req : Request) (existing : JVal) :
    patchValidateStep lib req existing = ⟨[], Except.ok ()⟩ := by
  obtain ⟨u, q, body⟩ := req
  cases body <;> simp [patchValidateStep, invalidPatchGuard_eq_false]

theorem putOne_guard_blocks (req : Request) (spec : SpecEP) (E : Entity)
    (g : Obj → Request → Option JErr) (e0 : JErr)
    (hg : E.shouldUpdate = some g)
    (hge : g (putOneCandidate req spec E) req = some e0) (p : Obj) :
    Event.replaceOneCall p ∉ (putOne req spec E).trace := by
  intro hmem
  simp [putOne, mem_seq_trace, Run.emit, checkStep, assertValidStep,
    updateGuardStep, hg, hge, resOf, mem_didUpdateStep] at hmem

theorem patchOne_guard_blocks (lib : JsonPatchLib) (req : Request) (spec : SpecEP)
    (E : Entity) (g : Obj → Request → Option JErr) (e0 : JErr)
    (hg : E.shouldUpdate = some g)
    (hge : g (patchOneCandidate lib req spec E) req = some e0) (p : Obj) :
    Event.updateOneCall p ∉ (patchOne lib req spec E).trace := by
  intro hmem
  simp [patchOne, mem_seq_trace, Run.emit, checkStep, assertValidStep,
    updateGuardStep, hg, hge, resOf, mem_didUpdateStep,
    patchValidateStep_run] at hmem

theorem postOne_guard_blocks (req : Request) (spec : SpecEP) (E : Entity)
    (g : Obj → Request → Option JErr) (e0 : JErr)
    (hg : E.shouldCreate = some g)
    (hge : g (postOneCandidate req spec E) req = some e0) (p : Obj) :
    Event.createOneCall p ∉ (postOne req spec E).trace := by
  intro hmem
  simp [postOne, mem_seq_trace, Run.emit, assertValidStep,
    createGuardStep, hg, hge, resOf, mem_didCreateStep] at hmem

theorem patchManyRecord_guard_blocks (req : Request) (E : Entity) (setProps : Obj)
    (existing : JVal) (g : Obj → Request → Option JErr) (e0 : JErr)
    (hg : E.shouldUpdate = some g)
    (hge : g (patchManyRecordCandidate req E setProps existing) req = some e0)
    (p : Obj) :
    Event.updateOneCall p ∉ (patchManyRecord req E setProps existing).trace := by
  intro hmem
  simp [patchManyRecord, mem_seq_trace, Run.emit, assertValidStep,
    updateGuardStep, hg, hge, resOf] at hmem

theorem deleteOne_guard_blocks (req : Request) (spec : SpecEP) (E : Entity)
    (g : JVal → Request → Option JErr) (e0 : JErr)
    (hg : E.shouldDelete = some g)
    (hge : g (E.findById req.urlParams.entityId) req = some e0) (r : JVal) :
    Event.deleteOneCall r ∉ (deleteOne req spec E).trace := by
  intro hmem
  simp [deleteOne, mem_seq_trace, Run.emit, checkStep,
    deleteGuardStep, hg, hge, resOf, mem_didDeleteStep] at hmem

theorem putOne_valid_before_guard (req : Request) (spec : SpecEP) (E : Entity)
    (c : Obj) (hc : Event.shouldUpdateCall c ∈ (putOne req spec E).trace) :
    c = putOneCandidate req spec E
    ∧ List.Sublist
        [Event.assertValid (putOneCandidate req spec E),
         Event.shouldUpdateCall (putOneCandidate req spec E)]
        (putOne req spec E).trace := by
  cases hOb : jvIsObject (E.findById req.urlParams.entityId) with
  | false =>
    simp [putOne, mem_seq_trace, Run.emit, checkStep, hOb] at hc
  | true =>
    cases hA : E.assertValid (putOneCandidate req spec E) with
    | some e =>
      simp [putOne, mem_seq_trace, Run.emit, checkStep, assertValidStep,
        hOb, hA, resOf] at hc
    | none =>
      cases hG : E.shouldUpdate with
      | none =>
        simp [putOne, mem_seq_trace, Run.emit, checkStep, assertValidStep,
          updateGuardStep, hOb, hA, hG, resOf, mem_didUpdateStep] at hc
      | some g =>
        cases hGE : g (putOneCandidate req spec E) req with
        | some e =>
          have hrun : putOne req spec E =
              ⟨[Event.findByIdCall req.urlParams.entityId,
                Event.assertValid (putOneCandidate req spec E),
                Event.shouldUpdateCall (putOneCandidate req spec E)],
               Except.error e⟩ := by
            simp [putOne, Run.seq, Run.emit, checkStep, assertValidStep,
              updateGuardStep, hOb, hA, hG, hGE, resOf]
          rw [hrun] at hc ⊢
          simp at hc
          subst hc
          exact ⟨rfl, List.Sublist.cons _ (List.Sublist.refl _)⟩
        | none =>
          have hrun : putOne req spec E =
              ⟨[Event.findByIdCall req.urlParams.entityId,
                Event.assertValid (putOneCandidate req spec E),
                Event.shouldUpdateCall (putOneCandidate req spec E),
                Event.replaceOneCall (putOneCandidate req spec E),
                Event.respond 200 (some (exportOf E
                  (E.replaceOne (putOneCandidate req spec E))))]
                ++ (didUpdateStep E (exportOf E
                    (E.replaceOne (putOneCandidate req spec E)))).trace,
               Except.ok ()⟩ := by
            simp [putOne, Run.seq, Run.emit, checkStep, assertValidStep,
              updateGuardStep, didUpdateStep, hOb, hA, hG, hGE, resOf]
          rw [hrun] at hc ⊢
          simp [mem_didUpdateStep] at hc
          subst hc
          exact ⟨rfl, List.Sublist.cons _
            (List.Sublist.cons₂ _ (List.Sublist.cons₂ _ (List.nil_sublist _)))⟩

theorem patchOne_valid_before_guard (lib : JsonPatchLib) (req : Request)
    (spec : SpecEP) (E : Entity) (c : Obj)
    (hc : Event.shouldUpdateCall c ∈ (patchOne lib req spec E).trace) :
    c = patchOneCandidate lib req spec E
    ∧ List.Sublist
        [Event.assertValid (patchOneCandidate lib req spec E),
         Event.shouldUpdateCall (patchOneCandidate lib req spec E)]
        (patchOne lib req spec E).trace := by
  cases hOb : jvIsObject (E.findById req.urlParams.entityId) with
  | false =>
    simp [patchOne, mem_seq_trace, Run.emit, checkStep, hOb] at hc
  | true =>
    cases hA : E.assertValid (patchOneCandidate lib req spec E) with
    | some e =>
      simp [patchOne, mem_seq_trace, Run.emit, checkStep, assertValidStep,
        patchValidateStep_run, hOb, hA, resOf] at hc
    | none =>
      cases hG : E.shouldUpdate with
      | none =>
        simp [patchOne, mem_seq_trace, Run.emit, checkStep, assertValidStep,
          patchValidateStep_run, updateGuardStep, hOb, hA, hG, resOf,
          mem_didUpdateStep] at hc
      | some g =>
        cases hGE : g (patchOneCandidate lib req spec E) req with
        | some e =>
          have hrun : patchOne lib req spec E =
              ⟨[Event.findByIdCall req.urlParams.entityId,
                Event.assertValid (patchOneCandidate lib req spec E),
                Event.shouldUpdateCall (patchOneCandidate lib req spec E)],
               Except.error e⟩ := by
            simp [patchOne, Run.seq, Run.emit, checkStep, assertValidStep,
              patchValidateStep_run, updateGuardStep, hOb, hA, hG, hGE, resOf]
          rw [hrun] at hc ⊢
          simp at hc
          subst hc
          exact ⟨rfl, List.Sublist.cons _ (List.Sublist.refl _)⟩
        | none =>
          have hrun : patchOne lib req spec E =
              ⟨[Event.findByIdCall req.urlParams.entityId,
                Event.assertValid (patchOneCandidate lib req spec E),
                Event.shouldUpdateCall (patchOneCandidate lib req spec E),
                Event.updateOneCall (patchOneCandidate lib req spec E),
                Event.respond 200 (some (exportOf E
                  (E.updateOne (patchOneCandidate lib req spec E))))]
                ++ (didUpdateStep E (exportOf E
                    (E.updateOne (patchOneCandidate lib req spec E)))).trace,
               Except.ok ()⟩ := by
            simp [patchOne, Run.seq, Run.emit, checkStep, assertValidStep,
              patchValidateStep_run, updateGuardStep, didUpdateStep,
              hOb, hA, hG, hGE, resOf]
          rw [hrun] at hc ⊢
          simp [mem_didUpdateStep] at hc
          subst hc
          exact ⟨rfl, List.Sublist.cons _
            (List.Sublist.cons₂ _ (List.Sublist.cons₂ _ (List.nil_sublist _)))⟩

theorem postOne_valid_before_guard (req : Request) (spec : SpecEP) (E : Entity)
    (c : Obj) (hc : Event.shouldCreateCall c ∈ (postOne req spec E).trace) :
    c = postOneCandidate req spec E
    ∧ List.Sublist
        [Event.assertValid (postOneValidated req spec E),
         Event.shouldCreateCall (postOneCandidate req spec E)]
        (postOne req spec E).trace := by
  cases hA : E.assertValid (postOneValidated req spec E) with
  | some e =>
    simp [postOne, mem_seq_trace, Run.emit, assertValidStep, hA, resOf] at hc
  | none =>
    cases hG : E.shouldCreate with
    | none =>
      simp [postOne, mem_seq_trace, Run.emit, assertValidStep,
        createGuardStep, hA, hG, resOf, mem_didCreateStep] at hc
    | some g =>
      cases hGE : g (postOneCandidate req spec E) req with
      | some e =>
        have hrun : postOne req spec E =
            ⟨[Event.assertValid (postOneValidated req spec E),
              Event.shouldCreateCall (postOneCandidate req spec E)],
             Except.error e⟩ := by
          simp [postOne, Run.seq, Run.emit, assertValidStep,
            createGuardStep, hA, hG, hGE, resOf]
        rw [hrun] at hc ⊢
        simp at hc
        subst hc
        exact ⟨rfl, List.Sublist.refl _⟩
      | none =>
        have hrun : postOne req spec E =
            ⟨[Event.assertValid (postOneValidated req spec E),
              Event.shouldCreateCall (postOneCandidate req spec E),
              Event.createOneCall (postOneCandidate req spec E),
              Event.respond 201 (some (exportOf E
                (E.createOne (postOneCandidate req spec E))))]
              ++ (didCreateStep E (E.createOne (postOneCandidate req spec E))).trace,
             Except.ok ()⟩ := by
          simp [postOne, Run.seq, Run.emit, assertValidStep,
            createGuardStep, didCreateStep, hA, hG, hGE, resOf]
        rw [hrun] at hc ⊢
        simp [mem_didCreateStep] at hc
        subst hc
        exact ⟨rfl, List.Sublist.cons₂ _
          (List.Sublist.cons₂ _ (List.nil_sublist _))⟩

theorem patchManyRecord_valid_before_guard (req : Request) (E : Entity)
    (setProps : Obj) (existing : JVal) (c : Obj)
    (hc : Event.shouldUpdateCall c ∈ (patchManyRecord req E setProps existing).trace) :
    c = patchManyRecordCandidate req E setProps existing
    ∧ List.Sublist
        [Event.assertValid (patchManyRecordCandidate req E setProps existing),
         Event.shouldUpdateCall (patchManyRecordCandidate req E setProps existing)]
        (patchManyRecord req E setProps existing).trace := by
  cases hA : E.assertValid (patchManyRecordCandidate req E setProps existing) with
  | some e =>
    simp [patchManyRecord, mem_seq_trace, Run.emit, assertValidStep, hA, resOf] at hc
  | none =>
    cases hG : E.shouldUpdate with
    | none =>
      simp [patchManyRecord, mem_seq_trace, Run.emit, assertValidStep,
        updateGuardStep, hA, hG, resOf] at hc
    | some g =>
      cases hGE : g (patchManyRecordCandidate req E setProps existing) req with
      | some e =>
        have hrun : patchManyRecord req E setProps existing =
            ⟨[Event.assertValid (patchManyRecordCandidate req E setProps existing),
              Event.shouldUpdateCall (patchManyRecordCandidate req E setProps existing)],
             Except.error e⟩ := by
          simp [patchManyRecord, Run.seq, Run.emit, assertValidStep,
            updateGuardStep, hA, hG, hGE, resOf]
        rw [hrun] at hc ⊢
        simp at hc
        subst hc
        exact ⟨rfl, List.Sublist.refl _⟩
      | none =>
        have hrun : patchManyRecord req E setProps existing =
            ⟨[Event.assertValid (patchManyRecordCandidate req E setProps existing),
              Event.shouldUpdateCall (patchManyRecordCandidate req E setProps existing),
              Event.updateOneCall (patchManyRecordCandidate req E setProps existing)],
             Except.ok ()⟩ := by
          simp [patchManyRecord, Run.seq, Run.emit, assertValidStep,
            updateGuardStep, hA, hG, hGE, resOf]
        rw [hrun] at hc ⊢
        simp at hc
        subst hc
        exact ⟨rfl, List.Sublist.cons₂ _
          (List.Sublist.cons₂ _ (List.nil_sublist _))⟩

/-- C4: for create, replace, patch-one, each patch-many record, and delete,
a present and rejecting guard hook (`shouldCreate`/`shouldUpdate`/
`shouldDelete`) means the corresponding storage mutation (`createOne`/
`replaceOne`/`updateOne`/`deleteOne`) is never invoked; and whenever a
guard of create/replace/patch runs, `Entity.assertValid` has already been
invoked, earlier in the trace, on the candidate (for create: on the
candidate augmented with the synthetic placeholder id, exactly as the
source validates it). -/
theorem guards_block_mutation_after_validation (lib : JsonPatchLib) (req : Request)
    (spec : SpecEP) (E : Entity) :
    (∀ g e, E.shouldCreate = some g → g (postOneCandidate req spec E) req = some e →
      ∀ p, Event.createOneCall p ∉ (postOne req spec E).trace)
    ∧ (∀ g e, E.shouldUpdate = some g → g (putOneCandidate req spec E) req = some e →
      ∀ p, Event.replaceOneCall p ∉ (putOne req spec E).trace)
    ∧ (∀ g e, E.shouldUpdate = some g →
      g (patchOneCandidate lib req spec E) req = some e →
      ∀ p, Event.updateOneCall p ∉ (patchOne lib req spec E).trace)
    ∧ (∀ setProps existing g e, E.shouldUpdate = some g →
      g (patchManyRecordCandidate req E setProps existing) req = some e →
      ∀ p, Event.updateOneCall p ∉ (patchManyRecord req E setProps existing).trace)
    ∧ (∀ g e, E.shouldDelete = some g →
      g (E.findById req.urlParams.entityId) req = some e →
      ∀ r, Event.deleteOneCall r ∉ (deleteOne req spec E).trace)
    ∧ (∀ c, Event.shouldCreateCall c ∈ (postOne req spec E).trace →
      List.Sublist
        [Event.assertValid (postOneValidated req spec E),
         Event.shouldCreateCall (postOneCandidate req spec E)]
        (postOne req spec E).trace)
    ∧ (∀ c, Event.shouldUpdateCall c ∈ (putOne req spec E).trace →
      List.Sublist
        [Event.assertValid (putOneCandidate req spec E),
         Event.shouldUpdateCall (putOneCandidate req spec E)]
        (putOne req spec E).trace)
    ∧ (∀ c, Event.shouldUpdateCall c ∈ (patchOne lib req spec E).trace →
      List.Sublist
        [Event.assertValid (patchOneCandidate lib req spec E),
         Event.shouldUpdateCall (patchOneCandidate lib req spec E)]
        (patchOne lib req spec E).trace)
    ∧ (∀ setProps existing c,
      Event.shouldUpdateCall c ∈ (patchManyRecord req E setProps existing).trace →
      List.Sublist
        [Event.assertValid (patchManyRecordCandidate req E setProps existing),
         Event.shouldUpdateCall (patchManyRecordCandidate req E setProps existing)]
        (patchManyRecord req E setProps existing).trace) := by
  refine ⟨?_, ?_, ?_, ?_, ?_, ?_, ?_, ?_, ?_⟩
  · intro g e hg hge p
    exact postOne_guard_blocks req spec E g e hg hge p
  · intro g e hg hge p
    exact putOne_guard_blocks req spec E g e hg hge p
  · intro g e hg hge p
    exact patchOne_guard_blocks lib req spec E g e hg hge p
  · intro setProps existing g e hg hge p
    exact patchManyRecord_guard_blocks req E setProps existing g e hg hge p
  · intro g e hg hge r
    exact deleteOne_guard_blocks req spec E g e hg hge r
  · intro c hcm
    exact (postOne_valid_before_guard req spec E c hcm).2
  · intro c hcm
    exact (putOne_valid_before_guard req spec E c hcm).2
  · intro c hcm
    exact (patchOne_valid_before_guard lib req spec E c hcm).2
  · intro setProps existing c hcm
    exact (patchManyRecord_valid_before_guard req E setProps existing c hcm).2

/-- A rejecting update guard. -/
def rejectingGuard : Obj → Request → Option JErr :=
  fun _ _ => some ⟨some 403, "update rejected", JVal.undef⟩

/-- An Entity whose `shouldUpdate` rejects every candidate. -/
def rejectingEntity : Entity := { baseEntity with shouldUpdate := some rejectingGuard }

/-- A JSON-Patch library instance that reports no error and applies the
identity patch — enough to exercise the pipelines. -/
def idPatchLib : JsonPatchLib := ⟨fun _ _ => none, fun d _ => d⟩

/-- C4 witness: with a concrete rejecting `shouldUpdate`, `putOne` never
reaches `replaceOne`. -/
theorem guards_block_mutation_after_validation_witness :
    Event.replaceOneCall []
      ∉ (putOne (reqWithBody (JVal.obj [])) noneSpec rejectingEntity).trace :=
  (guards_block_mutation_after_validation idPatchLib
    (reqWithBody (JVal.obj [])) noneSpec rejectingEntity).2.1
    rejectingGuard ⟨some 403, "update rejected", JVal.undef⟩ rfl rfl []

/-! ## C1 — the dead `Invalid patch` guard -/

/-- A JSON-Patch body with an invalid operation: a `replace` without a
`value` member. -/
def invalidOpPatchBody : JVal :=
  JVal.arr [JVal.obj [("op", JVal.str "replace"), ("path", JVal.str "/name")]]

/-- The external library's behavior at that input, per fast-json-patch's
documented interface: `validate` returns the first error — the
`OPERATION_VALUE_REQUIRED` `JsonPatchError` object, not a number — and
`applyPatch` (whose per-operation validation is off here) silently sets
`name` to `undefined`. -/
def missingValueLib : JsonPatchLib where
  validate := fun _ _ => some ⟨"OPERATION_VALUE_REQUIRED", "value MUST be defined"⟩
  applyPatch := fun _ _ => JVal.obj [("id", JVal.str "42"), ("name", JVal.undef)]

/-- C1 (code bug): the validator reports an error for this body against
the existing record, yet `patchOne` does not fail with `Invalid patch` —
`patchErrors > 0` coerces the error object to `NaN`, so the guard
`patchErrors && patchErrors > 0` is false for every validator result
(last conjunct) — and the run succeeds, reaching `Entity.updateOne`. -/
theorem patchOne_invalid_patch_guard_dead :
    (missingValueLib.validate invalidOpPatchBody
      (baseEntity.findById (JVal.str "42"))).isSome = true
    ∧ (patchOne missingValueLib (reqWithBody invalidOpPatchBody) noneSpec
        baseEntity).result = Except.ok ()
    ∧ Event.updateOneCall [("id", JVal.str "42")]
        ∈ (patchOne missingValueLib (reqWithBody invalidOpPatchBody) noneSpec
            baseEntity).trace
    ∧ ∀ r, invalidPatchGuard r = false := by
  have hrun : patchOne missingValueLib (reqWithBody invalidOpPatchBody) noneSpec
      baseEntity =
      ⟨[Event.findByIdCall (JVal.str "42"),
        Event.assertValid [("id", JVal.str "42")],
        Event.updateOneCall [("id", JVal.str "42")],
        Event.respond 200 (some (JVal.obj [("id", JVal.str "42")]))],
       Except.ok ()⟩ := rfl
  refine ⟨rfl, ?_, ?_, invalidPatchGuard_eq_false⟩
  · rw [hrun]
  · rw [hrun]
    simp

theorem putOne_replaceOne_props (req : Request) (spec : SpecEP) (E : Entity)
    (p : Obj) (h : Event.replaceOneCall p ∈ (putOne req spec E).trace) :
    p = putOneCandidate req spec E := by
  cases hOb : jvIsObject (E.findById req.urlParams.entityId) with
  | false =>
    simp [putOne, mem_seq_trace, Run.emit, checkStep, hOb] at h
  | true =>
    cases hA : E.assertValid (putOneCandidate req spec E) with
    | some e =>
      simp [putOne, mem_seq_trace, Run.emit, checkStep, assertValidStep,
        hOb, hA, resOf] at h
    | none =>
      cases hG : E.shouldUpdate with
      | none =>
        simp [putOne, mem_seq_trace, Run.emit, checkStep, assertValidStep,
          updateGuardStep, hOb, hA, hG, resOf, mem_didUpdateStep] at h
        exact h
      | some g =>
        cases hGE : g (putOneCandidate req spec E) req with
        | some e =>
          simp [putOne, mem_seq_trace, Run.emit, checkStep, assertValidStep,
            updateGuardStep, hOb, hA, hG, hGE, resOf] at h
        | none =>
          simp [putOne, mem_seq_trace, Run.emit, checkStep, assertValidStep,
            updateGuardStep, hOb, hA, hG, hGE, resOf, mem_didUpdateStep] at h
          exact h

theorem patchOne_updateOne_props (lib : JsonPatchLib) (req : Request)
    (spec : SpecEP) (E : Entity) (p : Obj)
    (h : Event.updateOneCall p ∈ (patchOne lib req spec E).trace) :
    p = patchOneCandidate lib req spec E := by
  cases hOb : jvIsObject (E.findById req.urlParams.entityId) with
  | false =>
    simp [patchOne, mem_seq_trace, Run.emit, checkStep, hOb] at h
  | true =>
    cases hA : E.assertValid (patchOneCandidate lib req spec E) with
    | some e =>
      simp [patchOne, mem_seq_trace, Run.emit, checkStep, assertValidStep,
        patchValidateStep_run, hOb, hA, resOf] at h
    | none =>
      cases hG : E.shouldUpdate with
      | none =>
        simp [patchOne, mem_seq_trace, Run.emit, checkStep, assertValidStep,
          patchValidateStep_run, updateGuardStep, hOb, hA, hG, resOf,
          mem_didUpdateStep] at h
        exact h
      | some g =>
        cases hGE : g (patchOneCandidate lib req spec E) req with
        | some e =>
          simp [patchOne, mem_seq_trace, Run.emit, checkStep, assertValidStep,
            patchValidateStep_run, updateGuardStep, hOb, hA, hG, hGE, resOf] at h
        | none =>
          simp [patchOne, mem_seq_trace, Run.emit, checkStep, assertValidStep,
            patchValidateStep_run, updateGuardStep, hOb, hA, hG, hGE, resOf,
            mem_didUpdateStep] at h
          exact h

/-- C5: for every replace (`putOne`) and patch-one invocation with a string
`urlParams.entityId`, the object handed to `prepareUpdate` has its `id`
field equal to that URL parameter — regardless of any `id` in the body or
in the `set()` result — and, when `prepareUpdate` is absent, so does the
candidate handed to `assertValid` and to `replaceOne`/`updateOne`: the
last two conjuncts show any `replaceOne`/`updateOne` call in the trace
carries that id. -/
theorem candidate_id_from_url (lib : JsonPatchLib) (req : Request) (spec : SpecEP)
    (E : Entity) (s : String) (hid : req.urlParams.entityId = JVal.str s) :
    lookupA (putOnePrepareInput req spec E) "id" = some (JVal.str s)
    ∧ lookupA (patchOnePrepareInput lib req spec E) "id" = some (JVal.str s)
    ∧ (E.prepareUpdate = none →
        lookupA (putOneCandidate req spec E) "id" = some (JVal.str s)
        ∧ lookupA (patchOneCandidate lib req spec E) "id" = some (JVal.str s))
    ∧ (E.prepareUpdate = none →
        ∀ p, Event.replaceOneCall p ∈ (putOne req spec E).trace →
          lookupA p "id" = some (JVal.str s))
    ∧ (E.prepareUpdate = none →
        ∀ p, Event.updateOneCall p ∈ (patchOne lib req spec E).trace →
          lookupA p "id" = some (JVal.str s)) := by
  have hput : E.prepareUpdate = none →
      lookupA (putOneCandidate req spec E) "id" = some (JVal.str s) := by
    intro hprep
    rw [putOneCandidate, hprep]
    show lookupA (omitUndef (putOnePrepareInput req spec E)) "id" = some (JVal.str s)
    rw [putOnePrepareInput, hid,
      lookupA_omitUndef _ _ (nodup_keysA_mergeCandidate _ _ _),
      lookupA_mergeCandidate_id]
    rfl
  have hpatch : E.prepareUpdate = none →
      lookupA (patchOneCandidate lib req spec E) "id" = some (JVal.str s) := by
    intro hprep
    rw [patchOneCandidate, hprep]
    show lookupA (omitUndef (patchOnePrepareInput lib req spec E)) "id"
      = some (JVal.str s)
    rw [patchOnePrepareInput, hid,
      lookupA_omitUndef _ _ (nodup_keysA_mergeCandidate _ _ _),
      lookupA_mergeCandidate_id]
    rfl
  refine ⟨?_, ?_, fun hprep => ⟨hput hprep, hpatch hprep⟩, ?_, ?_⟩
  · rw [putOnePrepareInput, hid, lookupA_mergeCandidate_id]
  · rw [patchOnePrepareInput, hid, lookupA_mergeCandidate_id]
  · intro hprep p hp
    rw [putOne_replaceOne_props req spec E p hp]
    exact hput hprep
  · intro hprep p hp
    rw [patchOne_updateOne_props lib req spec E p hp]
    exact hpatch hprep

/-- C5 witness: with a body and a `set()` result both claiming `id: 999`,
the object `putOne` hands to `prepareUpdate` still carries the URL's
`id: "42"`. -/
theorem candidate_id_from_url_witness :
    lookupA
      (putOnePrepareInput
        (reqWithBody (JVal.obj [("id", JVal.str "999"), ("name", JVal.str "b")]))
        ⟨none, none, none, some (fun _ => [("id", JVal.str "999")])⟩
        baseEntity)
      "id" = some (JVal.str "42") :=
  (candidate_id_from_url idPatchLib
    (reqWithBody (JVal.obj [("id", JVal.str "999"), ("name", JVal.str "b")]))
    ⟨none, none, none, some (fun _ => [("id", JVal.str "999")])⟩
    baseEntity "42" rfl).1
